import Mathlib

/-!
Verification of the TileDB `StorageManager` core
(`tiledb/sm/storage_manager/storage_manager.cc`).

The C++ source is shallowly embedded: each `StorageManager` member function
that the claims touch is translated to a pure Lean function over an explicit
coordinator state (`SMState`).  External collaborators (VFS, tile cache,
`OpenArray`'s own methods, `FragmentMetadata::load`) are abstracted as an
environment record `Env` of oracles; a fallible call is an `Option`/`Bool`
valued oracle.  Machine integers (`uint64_t`, `long long`) are `Nat`/`Int`
with explicit bounds where overflow or saturation matters.

Blocking primitives (mutexes, the reader-drain condition variable, the
quiescence wait) do not translate to a sequential embedding; every function
here models the effect of one *completed* call of the corresponding C++
function, executed without interleaving.  Where a function only returns
after a wait condition holds (e.g. `wait_for_zero_in_progress`), the
theorems carry that condition as a hypothesis.
-/

namespace TileDBSM

/- ********************************* -/
/- Status values (error taxonomy)    -/
/- ********************************* -/

/-- Abstract error kinds for the `Status` values produced by the embedded
functions, following the spec's error taxonomy (§7).  The C++ code returns
`Status::StorageManagerError` with message strings; only the kind matters
to the claims. -/
inductive ErrKind where
  | unsupportedScheme
  | arrayNotExist
  | encryptionMismatch
  | lockFailure
  | schemaLoad
  | fragmentLoad
  | xlockMissing
  | cacheError
  deriving DecidableEq, Repr

/-- Mirror of `tiledb::sm::Status`: either OK or an error. -/
inductive Status where
  | ok
  | err (kind : ErrKind)
  deriving DecidableEq, Repr

/-- Mirror of `tiledb::sm::ObjectType`. -/
inductive ObjectType where
  | array
  | keyValue
  | group
  | invalid
  deriving DecidableEq, Repr

/- ********************************* -/
/- On-disk name constants            -/
/- ********************************* -/

/-- Mirror of `constants::array_schema_filename` (spec §6 on-disk layout). -/
def array_schema_filename : String := "__array_schema.tdb"

/-- Mirror of `constants::kv_schema_filename`. -/
def kv_schema_filename : String := "__kv_schema.tdb"

/-- Mirror of `constants::group_filename`. -/
def group_filename : String := "__tiledb_group.tdb"

/-- Mirror of `constants::fragment_metadata_filename`. -/
def fragment_metadata_filename : String := "__fragment_metadata.tdb"

/-- Mirror of `constants::filelock_name`. -/
def filelock_name : String := "__lockfile"

/-- Mirror of `constants::coords + constants::file_suffix`. -/
def coords_filename : String := "__coords.tdb"

/- ********************************* -/
/- String / URI helpers              -/
/- ********************************* -/

/-- Byte-wise lexicographic `<=` on character lists, mirroring
`std::string::operator<` (URIs hold their canonical string form; on valid
UTF-8, code-point order and byte order agree). -/
def strLeList : List Char → List Char → Bool
  | [], _ => true
  | _ :: _, [] => false
  | a :: as, b :: bs =>
    if a.toNat < b.toNat then true
    else if b.toNat < a.toNat then false
    else strLeList as bs

/-- Mirror of `utils::parse::ends_with`. -/
def strEndsWith (s suffixStr : String) : Bool :=
  List.isSuffixOf suffixStr.data s.data

/-- Mirror of `utils::parse::starts_with`. -/
def strStartsWith (s p : String) : Bool :=
  List.isPrefixOf p.data s.data

/-- Modelled from the spec: `URI::join_path` produces `<uri>/<part>`
(spec §6 on-disk layout); a trailing slash on the left part is not doubled.
(`uri.cc` is not part of the sources under verification.) -/
def joinPath (u p : String) : String :=
  if strEndsWith u "/" then u ++ p else u ++ "/" ++ p

/-- Modelled from the spec: `URI::add_trailing_slash` (used by
`get_fragment_uris` to list the array directory). -/
def addTrailingSlash (u : String) : String :=
  if strEndsWith u "/" then u else u ++ "/"

/-- The suffix of `l` strictly after the last occurrence of `c`, and `l`
itself when `c` does not occur.  This is exactly
`s.substr(s.find_last_of(c) + 1)` in C++: when `find_last_of` returns
`npos = SIZE_MAX`, the `+ 1` wraps to `0` and `substr(0)` is the whole
string. -/
def afterLastChar (c : Char) (l : List Char) : List Char :=
  (List.takeWhile (fun x => x ≠ c) l.reverse).reverse

/-- Modelled from the spec: `URI::last_path_part` is
`uri.substr(uri.find_last_of('/') + 1)`. -/
def lastPathPart (s : String) : String :=
  String.mk (afterLastChar '/' s.data)

/-- Mirror of `if (uri_str.back() == '/') uri_str.pop_back();` in
`get_sorted_fragment_uris` / `get_fragment_info`. -/
def dropTrailingSlashOnce (s : String) : String :=
  match s.data.getLast? with
  | some c => if c = '/' then String.mk s.data.dropLast else s
  | none => s

/- ********************************* -/
/- sscanf("%lld") timestamp parsing  -/
/- ********************************* -/

/-- ASCII decimal digit test (`isdigit` over the C locale). -/
def isAsciiDigit (c : Char) : Bool :=
  48 ≤ c.toNat && c.toNat ≤ 57

/-- Value of an ASCII digit. -/
def digitVal (c : Char) : Nat := c.toNat - 48

/-- Base-10 value of a digit list (most significant first). -/
def digitsToNat (l : List Char) : Nat :=
  l.foldl (fun a c => 10 * a + digitVal c) 0

/-- `LLONG_MAX`. -/
def INT64_MAX : Int := 2 ^ 63 - 1

/-- `LLONG_MIN`. -/
def INT64_MIN : Int := -(2 ^ 63)

/-- Optional leading sign of a C integer conversion. -/
def splitSign : List Char → Int × List Char
  | [] => (1, [])
  | c :: rest =>
    if c = '-' then (-1, rest)
    else if c = '+' then (1, rest)
    else (1, c :: rest)

/-- One `sscanf(str, "%lld", &out)` conversion, as glibc implements it:
skip leading whitespace, optional sign, a nonempty digit run converted via
`strtoll`, which saturates to `LLONG_MAX`/`LLONG_MIN` on overflow (ISO C
leaves overflow undefined; glibc's behaviour is the saturating one).
Returns `none` on a matching failure, in which case `sscanf` stores
nothing and the output variable keeps its previous value. -/
def scanLld (l : List Char) : Option Int :=
  let l1 := l.dropWhile Char.isWhitespace
  let sgn := (splitSign l1).1
  let l2 := (splitSign l1).2
  let ds := l2.takeWhile isAsciiDigit
  if ds.isEmpty then none
  else some (max INT64_MIN (min INT64_MAX (sgn * (digitsToNat ds : Int))))

/-- Reinterpretation of the scanned `long long` as the `uint64_t` timestamp
variable it is stored into (`(long long int*)&t`). -/
def toUInt64 (v : Int) : Nat :=
  (v % (2 ^ 64 : Int)).toNat

/-- The fragment name extracted from a fragment URI: pop one trailing `/`,
then take the last path part (mirrors the first lines of
`get_sorted_fragment_uris` and `get_fragment_info`). -/
def fragmentNameOf (uriStr : String) : String :=
  lastPathPart (dropTrailingSlashOnce uriStr)

/-- The characters after the last `_` of the fragment name:
`fragment_name.substr(fragment_name.find_last_of('_') + 1)`. -/
def timestampSuffix (uriStr : String) : List Char :=
  afterLastChar '_' (fragmentNameOf uriStr).data

/-- Whether `sscanf("%lld")` performs a conversion on the fragment's
timestamp suffix.  The source `assert`s this (well-formed fragment names);
on a malformed name the scanned variable keeps its previous value. -/
def hasParseableTimestamp (uriStr : String) : Bool :=
  (scanLld (timestampSuffix uriStr)).isSome

/-- The timestamp the selector parses from a well-formed fragment URI. -/
def fragmentTimestamp (uriStr : String) : Nat :=
  match scanLld (timestampSuffix uriStr) with
  | some v => toUInt64 v
  | none => 0

/- ********************************* -/
/- Fragment selector                 -/
/- ********************************* -/

/-- The comparison `std::sort` uses on the `(timestamp, URI)` pairs:
`std::pair::operator<`, i.e. timestamp first, URI string as tie-break. -/
def fragLe (a b : Nat × String) : Prop :=
  a.1 < b.1 ∨ (a.1 = b.1 ∧ strLeList a.2.data b.2.data = true)

instance : DecidableRel fragLe := fun a b =>
  inferInstanceAs (Decidable (a.1 < b.1 ∨ (a.1 = b.1 ∧ strLeList a.2.data b.2.data = true)))

/-- The scan-and-filter loop of `get_sorted_fragment_uris`: the scratch
variable `t` is declared once outside the loop and updated only when
`sscanf` converts, so a malformed name reuses the previous iteration's
value; `tPrev` threads it (its initial value is the uninitialized
`uint64_t t`). -/
def gatherFragments (snapshot : Nat) : List String → Nat → List (Nat × String)
  | [], _ => []
  | uri :: rest, tPrev =>
    let t :=
      match scanLld (timestampSuffix uri) with
      | some v => toUInt64 v
      | none => tPrev
    (if t ≤ snapshot then [(t, uri)] else []) ++ gatherFragments snapshot rest t

/-- Mirror of `StorageManager::get_sorted_fragment_uris`
(storage_manager.cc:1623-1659): parse each fragment's trailing timestamp,
keep those `<= timestamp`, sort by `(timestamp, uri)`.  `std::sort` on a
total, antisymmetric order is modelled by insertion sort: any sorted
permutation of the gathered list is unique, so the two agree.  `t0` is the
(uninitialized) initial value of the scratch variable `t`. -/
def get_sorted_fragment_uris (t0 : Nat) (fragment_uris : List String)
    (timestamp : Nat) : List (Nat × String) :=
  if fragment_uris.isEmpty then []
  else List.insertionSort fragLe (gatherFragments timestamp fragment_uris t0)

/- ********************************* -/
/- Data model                        -/
/- ********************************* -/

/-- An encryption key: type tag plus byte content (spec §3: subsequent
opens must present a key with the same type and byte content). -/
structure EncKey where
  keyType : Nat
  keyBytes : List Nat
  deriving DecidableEq, Repr

/-- The observable part of a loaded `FragmentMetadata`: its URI, its parsed
timestamp, and dense-vs-sparse (detected by probing `<frag>/__coords.tdb`;
absence means dense). -/
structure FragmentMetadata where
  fragUri : String
  fragTimestamp : Nat
  dense : Bool
  deriving DecidableEq, Repr

/-- Mirror of `OpenArray` (the interned per-array registry entry): URI,
reference count, lazily loaded schema (abstracted to an identifier),
recorded encryption key, shared filelock handle (`none` =
`INVALID_FILELOCK`), and the fragment-metadata memo map. -/
structure OpenArray where
  oaUri : String
  cnt : Nat
  arraySchema : Option Nat
  encryptionKey : Option EncKey
  sharedFilelock : Option Nat
  fragMeta : List FragmentMetadata
  deriving DecidableEq, Repr

/-- A fresh `OpenArray(array_uri, QueryType::READ)`. -/
def newOpenArray (u : String) : OpenArray :=
  { oaUri := u, cnt := 0, arraySchema := none, encryptionKey := none,
    sharedFilelock := none, fragMeta := [] }

/-- Mirror of `OpenArray::cnt_incr`. -/
def OpenArray.cntIncr (oa : OpenArray) : OpenArray :=
  { oa with cnt := oa.cnt + 1 }

/-- Mirror of `OpenArray::cnt_decr`. -/
def OpenArray.cntDecr (oa : OpenArray) : OpenArray :=
  { oa with cnt := oa.cnt - 1 }

/-- Modelled from the spec: `OpenArray::set_encryption_key` (open_array.cc
is not among the sources under verification).  Spec §3: the key is
recorded on first open; a subsequent open must present a key with the same
type and byte content, otherwise the open fails with
`EncryptionMismatch`. -/
def OpenArray.setEncryptionKey (oa : OpenArray) (key : EncKey) : Status × OpenArray :=
  match oa.encryptionKey with
  | none => (.ok, { oa with encryptionKey := some key })
  | some k => if k = key then (.ok, oa) else (.err .encryptionMismatch, oa)

/-- Lookup in the fragment-metadata memo map by fragment URI
(`OpenArray::fragment_metadata(uri)`). -/
def OpenArray.fragMetaFor (oa : OpenArray) (uri : String) : Option FragmentMetadata :=
  oa.fragMeta.find? (fun m => m.fragUri == uri)

/-- Mirror of `OpenArray::insert_fragment_metadata`. -/
def OpenArray.insertFragMeta (oa : OpenArray) (m : FragmentMetadata) : OpenArray :=
  { oa with fragMeta := m :: oa.fragMeta }

/-- Mirror of `Buffer`, reduced to the two fields the claims observe. -/
structure Buffer where
  bufSize : Nat
  bufOffset : Nat
  deriving DecidableEq, Repr

/-- Mirror of `Buffer::set_size`. -/
def Buffer.set_size (b : Buffer) (n : Nat) : Buffer := { b with bufSize := n }

/-- Mirror of `Buffer::reset_offset`. -/
def Buffer.reset_offset (b : Buffer) : Buffer := { b with bufOffset := 0 }

/- ********************************* -/
/- Environment (VFS, cache, loads)   -/
/- ********************************* -/

/-- The external collaborators, as oracles.  A `none`/`false` result
models the collaborator returning a non-OK `Status`.  `isDir`/`ls`/
`isFile` are total: VFS transport failures on those calls are outside the
modelled behaviour (the claims condition on the classification logic, not
on I/O transport errors). -/
structure Env where
  supportsScheme : String → Bool
  isS3 : String → Bool
  isDir : String → Bool
  ls : String → List String
  isFile : String → Bool
  filelockLockShared : String → Option Nat
  filelockLockExclusive : String → Option Nat
  filelockUnlock : String → Nat → Bool
  loadSchemaAt : String → Option Nat
  fragLoadOk : String → Bool
  cacheRead : String → Nat → Option (Buffer × Bool)

/-- Modelled from the spec: `OpenArray::file_lock` acquires the shared
filelock on `<uri>/__lockfile` when none is held yet and records the
handle (spec §3/§4.1; open_array.cc is not among the sources). -/
def OpenArray.fileLock (oa : OpenArray) (env : Env) : Status × OpenArray :=
  match oa.sharedFilelock with
  | some _ => (.ok, oa)
  | none =>
    match env.filelockLockShared (joinPath oa.oaUri filelock_name) with
    | none => (.err .lockFailure, oa)
    | some h => (.ok, { oa with sharedFilelock := some h })

/-- Modelled from the spec: `OpenArray::file_unlock` releases the recorded
shared filelock through the VFS; with no recorded handle it is a no-op.
On a VFS release failure the error is returned and the handle kept. -/
def OpenArray.fileUnlock (oa : OpenArray) (env : Env) : Status × OpenArray :=
  match oa.sharedFilelock with
  | none => (.ok, oa)
  | some h =>
    if env.filelockUnlock (joinPath oa.oaUri filelock_name) h then
      (.ok, { oa with sharedFilelock := none })
    else (.err .lockFailure, oa)

/- ********************************* -/
/- Registries (std::map by URI)      -/
/- ********************************* -/

/-- `std::map::find` on a URI-keyed registry. -/
def regLookup (u : String) (l : List (String × α)) : Option α :=
  (l.find? (fun p => p.1 == u)).map (fun p => p.2)

/-- `std::map::erase` of the key `u` (a `std::map` holds at most one entry
per key). -/
def regErase (u : String) (l : List (String × α)) : List (String × α) :=
  l.filter (fun p => p.1 != u)

/-- `map[u] = v`: bind `u` to `v`, replacing any previous binding. -/
def regInsert (u : String) (v : α) (l : List (String × α)) : List (String × α) :=
  (u, v) :: regErase u l

/- ********************************* -/
/- Coordinator state                 -/
/- ********************************* -/

/-- The mutable fields of `StorageManager` the claims observe.
`xlockMtxHeld` models `xlock_mtx_` (the global exclusive mutex);
`queuedTasks`/`cancelledQueries`/`vfsPendingOps` model the cancelable task
queue, the set of queries whose cancel closure ran, and the VFS's
outstanding I/O. -/
structure SMState where
  openArraysForReads : List (String × OpenArray)
  xFilelocks : List (String × Nat)
  xlockMtxHeld : Bool
  cancellationInProgress : Bool
  queuedTasks : List Nat
  cancelledQueries : List Nat
  vfsPendingOps : List Nat
  queriesInProgress : Nat
  deriving DecidableEq, Repr

/-- Replace the reads registry (all registry mutation sites below go
through this helper). -/
def SMState.withReads (sm : SMState) (l : List (String × OpenArray)) : SMState :=
  { sm with openArraysForReads := l }

/-- The state after `StorageManager::StorageManager()` (lines 66-71). -/
def initSM : SMState :=
  { openArraysForReads := [], xFilelocks := [], xlockMtxHeld := false,
    cancellationInProgress := false, queuedTasks := [],
    cancelledQueries := [], vfsPendingOps := [], queriesInProgress := 0 }

/- ********************************* -/
/- object_type                       -/
/- ********************************* -/

/-- The classification loop over the directory children inside
`StorageManager::object_type` (lines 1058-1072): the first child whose
name ends with a sentinel filename decides the type; the per-child check
order is group, key-value schema, array schema. -/
def classifyChildren : List String → ObjectType
  | [] => .invalid
  | c :: rest =>
    if strEndsWith c group_filename then .group
    else if strEndsWith c kv_schema_filename then .keyValue
    else if strEndsWith c array_schema_filename then .array
    else classifyChildren rest

/-- Mirror of `StorageManager::object_type` (lines 1036-1076).  The
`Status` component records that classification itself never fails: the
only `RETURN_NOT_OK`s wrap VFS transport calls, which the environment
models as total. -/
def object_type (env : Env) (uri : String) : Status × ObjectType :=
  if env.isS3 uri then
    let dirUri := if strEndsWith uri "/" then uri else uri ++ "/"
    (.ok, classifyChildren (env.ls dirUri))
  else if env.isDir uri then (.ok, classifyChildren (env.ls uri))
  else (.ok, .invalid)

/- ********************************* -/
/- close for reads                   -/
/- ********************************* -/

/-- Mirror of `StorageManager::array_close_for_reads` (lines 108-148):
on a missing entry, success no-op; otherwise decrement the count; at zero,
release the shared filelock and — only if the release succeeded — delete
the entry; a release failure is returned with the entry (count zero) left
in the registry. -/
def array_close_for_reads (env : Env) (sm : SMState) (arrayUri : String) :
    Status × SMState :=
  match regLookup arrayUri sm.openArraysForReads with
  | none => (.ok, sm)
  | some oa0 =>
    let oa := oa0.cntDecr
    if oa.cnt = 0 then
      match oa.fileUnlock env with
      | (.err e, oa2) =>
        (.err e, sm.withReads (regInsert arrayUri oa2 sm.openArraysForReads))
      | (.ok, _) =>
        (.ok, sm.withReads (regErase arrayUri sm.openArraysForReads))
    else
      (.ok, sm.withReads (regInsert arrayUri oa sm.openArraysForReads))

/- ********************************* -/
/- open without fragments            -/
/- ********************************* -/

/-- The find-or-create step of `array_open_without_fragments`
(lines 1509-1528), performed under the reads-registry mutex and the global
exclusive mutex: check the encryption key of a found entry (or record the
key on a fresh one), and on success increment the reference count.  The
returned entry is the one to (re)bind in the registry; on error the
registry is untouched (a fresh entry is deleted before insertion). -/
def owfRegister (sm : SMState) (arrayUri : String) (key : EncKey) :
    Status × OpenArray :=
  match regLookup arrayUri sm.openArraysForReads with
  | some oa0 =>
    match oa0.setEncryptionKey key with
    | (.ok, oa1) => (.ok, oa1.cntIncr)
    | (.err e, _) => (.err e, oa0)
  | none =>
    match (newOpenArray arrayUri).setEncryptionKey key with
    | (.ok, oa1) => (.ok, oa1.cntIncr)
    | (.err e, _) => (.err e, newOpenArray arrayUri)

/-- Mirror of `load_array_schema(array_uri, object_type, encryption_key,
&array_schema)` (lines 1572-1587 dispatching to 995-1034): reject an
invalid (empty) URI, then read and deserialize the schema at
`<array>/__array_schema.tdb` or `<array>/__kv_schema.tdb`. -/
def loadArraySchemaAt (env : Env) (arrayUri : String) (objType : ObjectType) :
    Option Nat :=
  if arrayUri = "" then none
  else
    env.loadSchemaAt
      (joinPath arrayUri
        (if objType = .array then array_schema_filename else kv_schema_filename))

/-- The filelock/schema phase of `array_open_without_fragments`
(lines 1530-1549): acquire the shared filelock, then load the schema if
not yet loaded; on either failure, roll back through
`array_close_for_reads`.  `sm` already contains the entry `oa` bound at
`arrayUri`. -/
def owfLockAndSchema (env : Env) (sm : SMState) (arrayUri : String)
    (objType : ObjectType) (oa : OpenArray) : Status × SMState :=
  match oa.fileLock env with
  | (.err e, oaL) =>
    (.err e, (array_close_for_reads env
      (sm.withReads (regInsert arrayUri oaL sm.openArraysForReads)) arrayUri).2)
  | (.ok, oaL) =>
    match oaL.arraySchema with
    | some _ => (.ok, sm.withReads (regInsert arrayUri oaL sm.openArraysForReads))
    | none =>
      match loadArraySchemaAt env arrayUri objType with
      | none =>
        (.err .schemaLoad, (array_close_for_reads env
          (sm.withReads (regInsert arrayUri oaL sm.openArraysForReads)) arrayUri).2)
      | some s =>
        (.ok, (sm.withReads
            (regInsert arrayUri oaL sm.openArraysForReads)).withReads
          (regInsert arrayUri { oaL with arraySchema := some s }
            (sm.withReads
              (regInsert arrayUri oaL sm.openArraysForReads)).openArraysForReads))

/-- Mirror of `StorageManager::array_open_without_fragments`
(lines 1492-1550): validate the URI scheme, require the object to be an
array or key-value, find or create the registry entry (checking the
encryption key), increment its count, acquire the shared filelock, and
load the schema lazily; failures after the count increment roll back via
`array_close_for_reads`. -/
def array_open_without_fragments (env : Env) (sm : SMState)
    (arrayUri : String) (key : EncKey) : Status × SMState :=
  if env.supportsScheme arrayUri = false then (.err .unsupportedScheme, sm)
  else if (object_type env arrayUri).2 ≠ .array
      ∧ (object_type env arrayUri).2 ≠ .keyValue then
    (.err .arrayNotExist, sm)
  else
    match owfRegister sm arrayUri key with
    | (.err e, _) => (.err e, sm)
    | (.ok, oa) =>
      owfLockAndSchema env
        (sm.withReads (regInsert arrayUri oa sm.openArraysForReads))
        arrayUri ((object_type env arrayUri).2) oa

/- ********************************* -/
/- fragment enumeration and loading  -/
/- ********************************* -/

/-- Mirror of `StorageManager::get_fragment_uris` (lines 1552-1570): list
the array directory (with a trailing slash), skip hidden entries, and keep
the children that have a `__fragment_metadata.tdb` sentinel. -/
def get_fragment_uris (env : Env) (arrayUri : String) : List String :=
  (env.ls (addTrailingSlash arrayUri)).filter (fun uri =>
    strStartsWith (lastPathPart uri) "." = false
      && env.isFile (joinPath uri fragment_metadata_filename))

/-- Mirror of `StorageManager::load_fragment_metadata` (lines 1589-1621).
The `parallel_for` runs every load and the caller returns the first
(lowest-index) error; successfully loaded metadata stays memoized on the
entry either way.  Sparse-vs-dense is probed via `<frag>/__coords.tdb`;
`FragmentMetadata::load` succeeding is the oracle `env.fragLoadOk`. -/
def load_fragment_metadata (env : Env) (oa : OpenArray) :
    List (Nat × String) → Status × OpenArray × List FragmentMetadata
  | [] => (.ok, oa, [])
  | (t, uri) :: rest =>
    match oa.fragMetaFor uri with
    | some m =>
      let r := load_fragment_metadata env oa rest
      (r.1, r.2.1, m :: r.2.2)
    | none =>
      let sparse := env.isFile (joinPath uri coords_filename)
      let m : FragmentMetadata :=
        { fragUri := uri, fragTimestamp := t, dense := !sparse }
      if env.fragLoadOk uri then
        let r := load_fragment_metadata env (oa.insertFragMeta m) rest
        (r.1, r.2.1, m :: r.2.2)
      else
        let r := load_fragment_metadata env oa rest
        (.err .fragmentLoad, r.2.1, r.2.2)

/- ********************************* -/
/- open for reads                    -/
/- ********************************* -/

/-- Mirror of `StorageManager::array_open_for_reads` (lines 183-224):
open without fragments, read the schema pointer off the entry, enumerate
and sort the visible fragments, load their metadata, and on a load failure
roll back through `array_close_for_reads` with the schema out-pointer
nulled.  The scratch variable of the selector loop is passed as `0`; the
theorems that concern it quantify over it separately.  Result:
`(status, state, schema out-pointer, fragment metadata list)`. -/
def array_open_for_reads (env : Env) (sm : SMState) (arrayUri : String)
    (timestamp : Nat) (key : EncKey) :
    Status × SMState × Option Nat × List FragmentMetadata :=
  match array_open_without_fragments env sm arrayUri key with
  | (.err e, sm1) => (.err e, sm1, none, [])
  | (.ok, sm1) =>
    match regLookup arrayUri sm1.openArraysForReads with
    | none =>
      -- unreachable: a successful open-without-fragments leaves the entry
      -- registered (proved below)
      (.ok, sm1, none, [])
    | some oa =>
      match load_fragment_metadata env oa
          (get_sorted_fragment_uris 0 (get_fragment_uris env arrayUri)
            timestamp) with
      | (.err e, oa2, _) =>
        (.err e, (array_close_for_reads env
          (sm1.withReads (regInsert arrayUri oa2 sm1.openArraysForReads))
          arrayUri).2, none, [])
      | (.ok, oa2, metas) =>
        (.ok, sm1.withReads (regInsert arrayUri oa2 sm1.openArraysForReads),
         oa.arraySchema, metas)

/- ********************************* -/
/- exclusive locking                 -/
/- ********************************* -/

/-- Mirror of `StorageManager::array_xlock` (lines 648-667).  The call
first blocks on `xlock_mtx_` and then on the condition variable until the
array is absent from the reads registry; the definition gives the effect
of the completed call (so it is meaningful for states with
`xlockMtxHeld = false` and the array closed for reads).  On a filelock
acquisition failure the global exclusive mutex is released and nothing is
recorded. -/
def array_xlock (env : Env) (sm : SMState) (arrayUri : String) :
    Status × SMState :=
  let sm1 := { sm with xlockMtxHeld := true }
  match env.filelockLockExclusive (joinPath arrayUri filelock_name) with
  | none => (.err .lockFailure, { sm1 with xlockMtxHeld := false })
  | some fl =>
    (.ok, { sm1 with xFilelocks := regInsert arrayUri fl sm1.xFilelocks })

/-- `INVALID_FILELOCK`, as the handle value `0`. -/
def INVALID_FILELOCK : Nat := 0

/-- Mirror of `StorageManager::array_xunlock` (lines 669-687): fail (state
unchanged) when no filelock was recorded for the URI; otherwise release a
valid handle via the VFS (propagating a release failure with nothing
erased), erase the map entry and release the global exclusive mutex. -/
def array_xunlock (env : Env) (sm : SMState) (arrayUri : String) :
    Status × SMState :=
  match regLookup arrayUri sm.xFilelocks with
  | none => (.err .xlockMissing, sm)
  | some fl =>
    if fl ≠ INVALID_FILELOCK ∧
        env.filelockUnlock (joinPath arrayUri filelock_name) fl = false then
      (.err .lockFailure, sm)
    else
      (.ok, { sm with xFilelocks := regErase arrayUri sm.xFilelocks,
                      xlockMtxHeld := false })

/- ********************************* -/
/- cancellation                      -/
/- ********************************* -/

/-- Mirror of `StorageManager::cancel_all_tasks` (lines 709-735): if the
flag is already set, return immediately; otherwise set it, cancel the
queued tasks (their cancel closures mark the associated queries
cancelled), cancel outstanding VFS I/O, wait until the in-progress counter
drains, and clear the flag.  The definition is the completed call; the
quiescence wait only returns once `queriesInProgress = 0`, which the
theorems carry as a hypothesis. -/
def cancel_all_tasks (sm : SMState) : SMState :=
  if sm.cancellationInProgress then sm
  else
    { sm with
      queuedTasks := [],
      cancelledQueries := sm.cancelledQueries ++ sm.queuedTasks,
      vfsPendingOps := [],
      cancellationInProgress := false }

/-- Mirror of `StorageManager::cancellation_in_progress` (lines 737-740). -/
def cancellation_in_progress (sm : SMState) : Bool :=
  sm.cancellationInProgress

/- ********************************* -/
/- tile-cache facade                 -/
/- ********************************* -/

/-- Mirror of `StorageManager::read_from_cache` (lines 1270-1287): key is
`"<uri>+<offset>"`; delegate to the LRU's `read` (which reports hit/miss
in `in_cache` and only fails on internal errors), then unconditionally set
the buffer size to `nbytes` and reset its offset.  Result:
`(status, buffer, in_cache)`; on a cache error the out-parameter values
are not meaningful to the caller. -/
def read_from_cache (env : Env) (uri : String) (offset : Nat)
    (buffer : Buffer) (nbytes : Nat) : Status × Buffer × Bool :=
  let key := uri ++ "+" ++ toString offset
  match env.cacheRead key nbytes with
  | none => (.err .cacheError, buffer, false)
  | some (b, inCache) => (.ok, (b.set_size nbytes).reset_offset, inCache)

/- ********************************* -/
/- operation sequences               -/
/- ********************************* -/

/-- One reader-registry operation, for stating registry invariants over
arbitrary open/close sequences. -/
inductive Op where
  | openR (arrayUri : String) (timestamp : Nat) (key : EncKey)
  | closeR (arrayUri : String)
  deriving Repr

/-- Effect of one operation on the coordinator state. -/
def stepOp (env : Env) (sm : SMState) : Op → SMState
  | .openR u t k => (array_open_for_reads env sm u t k).2.1
  | .closeR u => (array_close_for_reads env sm u).2

/-- Run a sequence of operations from a state. -/
def runOps (env : Env) (sm : SMState) (ops : List Op) : SMState :=
  ops.foldl (stepOp env) sm

/-- Spec §8 invariant 2 (second half): no registry entry has a zero
reference count. -/
def NoZeroRef (sm : SMState) : Prop :=
  ∀ p ∈ sm.openArraysForReads, (p : String × OpenArray).2.cnt ≠ 0

/-- Number of bindings a registry holds for a key (for the at-most-one-
filelock-per-URI invariant). -/
def countKey (u : String) (l : List (String × α)) : Nat :=
  (l.filter (fun p => p.1 == u)).length

/-- The sentinel classification of a single directory child, in the check
order of the loop in `object_type`: group marker, then key-value schema,
then array schema. -/
def childSentinelType (c : String) : Option ObjectType :=
  if strEndsWith c group_filename then some .group
  else if strEndsWith c kv_schema_filename then some .keyValue
  else if strEndsWith c array_schema_filename then some .array
  else none

/- ********************************* -/
/- Concrete scenario environments    -/
/- ********************************* -/

/-- A concrete healthy environment: array `"arr"` with schema `7` and two
fragments `__f_0` (timestamp 0) and `__f_5` (timestamp 5); all VFS and
load operations succeed; cache reads report a miss. -/
def demoEnv : Env :=
  { supportsScheme := fun _ => true
    isS3 := fun _ => false
    isDir := fun u => u == "arr"
    ls := fun u =>
      if u == "arr" then ["arr/__array_schema.tdb"]
      else if u == "arr/" then ["arr/__f_0", "arr/__f_5"] else []
    isFile := fun f => strEndsWith f "__fragment_metadata.tdb"
    filelockLockShared := fun _ => some 1
    filelockLockExclusive := fun _ => some 2
    filelockUnlock := fun _ _ => true
    loadSchemaAt := fun _ => some 7
    fragLoadOk := fun _ => true
    cacheRead := fun _ _ => some ({ bufSize := 0, bufOffset := 3 }, false) }

/-- `demoEnv` with the filesystem listing of the array directory returned
in the opposite order. -/
def demoEnvPermuted : Env :=
  { demoEnv with
    ls := fun u =>
      if u == "arr" then ["arr/__array_schema.tdb"]
      else if u == "arr/" then ["arr/__f_5", "arr/__f_0"] else [] }

/-- `demoEnv` with a VFS whose filelock releases fail. -/
def demoEnvUnlockFails : Env :=
  { demoEnv with filelockUnlock := fun _ _ => false }

/-- `demoEnv` with failing filelock releases and a failing schema load. -/
def demoEnvBadSchema : Env :=
  { demoEnvUnlockFails with loadSchemaAt := fun _ => none }

/-- `demoEnv` with failing exclusive-filelock acquisition. -/
def demoEnvNoXLock : Env :=
  { demoEnv with filelockLockExclusive := fun _ => none }

/-- `demoEnv` with a directory `"multi"` containing a non-sentinel child
followed by both a key-value and an array schema sentinel. -/
def demoEnvMulti : Env :=
  { demoEnv with
    isDir := fun u => u == "multi"
    ls := fun u =>
      if u == "multi" then
        ["multi/a.txt", "multi/__kv_schema.tdb", "multi/__array_schema.tdb"]
      else [] }

/-- A concrete encryption key. -/
def demoKey : EncKey := { keyType := 0, keyBytes := [1, 2] }

/-- A concrete key differing from `demoKey` in byte content. -/
def demoKey2 : EncKey := { keyType := 0, keyBytes := [1, 3] }

/-- The registry entry of `"arr"` after one successful open at snapshot 10
under `demoEnv` (both fragments loaded and memoized). -/
def demoOa : OpenArray :=
  { oaUri := "arr", cnt := 1, arraySchema := some 7,
    encryptionKey := some demoKey, sharedFilelock := some 1,
    fragMeta := [{ fragUri := "arr/__f_5", fragTimestamp := 5, dense := true },
                 { fragUri := "arr/__f_0", fragTimestamp := 0, dense := true }] }

/-- The coordinator state after that open. -/
def demoSMOpen : SMState :=
  (array_open_for_reads demoEnv initSM "arr" 10 demoKey).2.1

/- ********************************* -/
/- Order properties of the sort key  -/
/- ********************************* -/

instance : IsTotal (Nat × String) fragLe where
  total a b := by
    rcases Nat.lt_trichotomy a.1 b.1 with h | h | h
    · exact Or.inl (Or.inl h)
    · have key : ∀ x y : List Char, strLeList x y = true ∨ strLeList y x = true := by
        intro x
        induction x with
        | nil => intro y; exact Or.inl rfl
        | cons cx xs ih =>
          intro y
          cases y with
          | nil => exact Or.inr rfl
          | cons cy ys =>
            rcases Nat.lt_trichotomy cx.toNat cy.toNat with hc | hc | hc
            · exact Or.inl (by simp [strLeList, hc])
            · rcases ih ys with h2 | h2
              · exact Or.inl (by simp [strLeList, hc, h2])
              · exact Or.inr (by simp [strLeList, hc, h2])
            · exact Or.inr (by simp [strLeList, hc])
      rcases key a.2.data b.2.data with h2 | h2
      · exact Or.inl (Or.inr ⟨h, h2⟩)
      · exact Or.inr (Or.inr ⟨h.symm, h2⟩)
    · exact Or.inr (Or.inl h)

instance : IsTrans (Nat × String) fragLe where
  trans a b c hab hbc := by
    have key : ∀ x y z : List Char, strLeList x y = true → strLeList y z = true →
        strLeList x z = true := by
      intro x
      induction x with
      | nil => intro y z _ _; rfl
      | cons cx xs ih =>
        intro y z hxy hyz
        cases y with
        | nil => simp [strLeList] at hxy
        | cons cy ys =>
          cases z with
          | nil => simp [strLeList] at hyz
          | cons cz zs =>
            rcases Nat.lt_trichotomy cx.toNat cy.toNat with h1 | h1 | h1
            · rcases Nat.lt_trichotomy cy.toNat cz.toNat with h2 | h2 | h2
              · simp [strLeList, Nat.lt_trans h1 h2]
              · have : cx.toNat < cz.toNat := by omega
                simp [strLeList, this]
              · simp [strLeList, h2, Nat.lt_asymm h2] at hyz
            · rcases Nat.lt_trichotomy cy.toNat cz.toNat with h2 | h2 | h2
              · have : cx.toNat < cz.toNat := by omega
                simp [strLeList, this]
              · have he : cx.toNat = cz.toNat := by omega
                simp only [strLeList, h1, Nat.lt_irrefl, if_false] at hxy
                simp only [strLeList, h2, Nat.lt_irrefl, if_false] at hyz
                simp only [strLeList, he, Nat.lt_irrefl, if_false]
                exact ih ys zs hxy hyz
              · simp [strLeList, h2, Nat.lt_asymm h2] at hyz
            · simp [strLeList, h1, Nat.lt_asymm h1] at hxy
    rcases hab with h1 | ⟨e1, l1⟩ <;> rcases hbc with h2 | ⟨e2, l2⟩
    · exact Or.inl (Nat.lt_trans h1 h2)
    · exact Or.inl (e2 ▸ h1)
    · exact Or.inl (e1 ▸ h2)
    · exact Or.inr ⟨e1.trans e2, key a.2.data b.2.data c.2.data l1 l2⟩

instance : IsAntisymm (Nat × String) fragLe where
  antisymm a b hab hba := by
    have key : ∀ x y : List Char, strLeList x y = true → strLeList y x = true →
        x = y := by
      intro x
      induction x with
      | nil => intro y _ hyx; cases y with
        | nil => rfl
        | cons cy ys => simp [strLeList] at hyx
      | cons cx xs ih =>
        intro y hxy hyx
        cases y with
        | nil => simp [strLeList] at hxy
        | cons cy ys =>
          rcases Nat.lt_trichotomy cx.toNat cy.toNat with h1 | h1 | h1
          · simp [strLeList, h1, Nat.lt_asymm h1] at hyx
          · have hc : cx = cy := Char.ext (UInt32.ext h1)
            subst hc
            simp only [strLeList, Nat.lt_irrefl, if_false] at hxy hyx
            exact congrArg (cx :: ·) (ih ys hxy hyx)
          · simp [strLeList, h1, Nat.lt_asymm h1] at hxy
    rcases hab with h1 | ⟨e1, l1⟩ <;> rcases hba with h2 | ⟨e2, l2⟩
    · exact absurd (Nat.lt_trans h1 h2) (Nat.lt_irrefl _)
    · exact absurd h1 (e2 ▸ Nat.lt_irrefl _)
    · exact absurd h2 (e1 ▸ Nat.lt_irrefl _)
    · refine Prod.ext e1 ?_
      have hd := key a.2.data b.2.data l1 l2
      cases ha : a.2
      cases hb : b.2
      simp_all

/- ********************************* -/
/- Registry lemmas                   -/
/- ********************************* -/

theorem regLookup_mem {α} {u : String} {v : α} {l : List (String × α)}
    (h : regLookup u l = some v) : (u, v) ∈ l := by
  unfold regLookup at h
  cases hf : l.find? (fun p => p.1 == u) with
  | none => simp [hf] at h
  | some p =>
    simp only [hf, Option.map_some'] at h
    have hm := List.mem_of_find?_eq_some hf
    have hp : p.1 = u := by simpa using List.find?_some hf
    obtain ⟨p1, p2⟩ := p
    simp only at h hp
    obtain rfl : p2 = v := Option.some.inj h
    subst hp
    exact hm

theorem mem_regErase {α} {u : String} {p : String × α} {l : List (String × α)}
    (h : p ∈ regErase u l) : p ∈ l :=
  List.mem_of_mem_filter h

theorem mem_regInsert {α} {u : String} {v : α} {p : String × α}
    {l : List (String × α)} (h : p ∈ regInsert u v l) : p = (u, v) ∨ p ∈ l := by
  unfold regInsert at h
  rcases List.mem_cons.mp h with h | h
  · exact Or.inl h
  · exact Or.inr (mem_regErase h)

theorem regLookup_regInsert_self {α} (u : String) (v : α) (l : List (String × α)) :
    regLookup u (regInsert u v l) = some v := by
  unfold regLookup regInsert
  rw [List.find?_cons_of_pos _ (by simp)]
  rfl

theorem find?_regErase {α} {u u' : String} (h : u ≠ u') (l : List (String × α)) :
    List.find? (fun p => p.1 == u') (regErase u l)
      = List.find? (fun p => p.1 == u') l := by
  induction l with
  | nil => rfl
  | cons a as ih =>
    unfold regErase at ih ⊢
    by_cases ha : a.1 = u
    · rw [List.filter_cons, if_neg (by simp [ha])]
      rw [List.find?_cons_of_neg _ (by simp [ha, h])]
      exact ih
    · rw [List.filter_cons, if_pos (by simp [ha])]
      by_cases h2 : a.1 = u'
      · rw [List.find?_cons_of_pos _ (by simp [h2]),
          List.find?_cons_of_pos _ (by simp [h2])]
      · rw [List.find?_cons_of_neg _ (by simp [h2]),
          List.find?_cons_of_neg _ (by simp [h2])]
        exact ih

theorem regLookup_regInsert_ne {α} {u u' : String} (h : u ≠ u') (v : α)
    (l : List (String × α)) : regLookup u' (regInsert u v l) = regLookup u' l := by
  unfold regLookup regInsert
  rw [List.find?_cons_of_neg _ (by simp [h]), find?_regErase h l]

theorem regLookup_regErase_self {α} (u : String) (l : List (String × α)) :
    regLookup u (regErase u l) = none := by
  unfold regLookup
  cases hf : List.find? (fun p => p.1 == u) (regErase u l) with
  | none => rfl
  | some p =>
    have hp : p.1 = u := by simpa using List.find?_some hf
    have hm := List.mem_of_find?_eq_some hf
    have h2 := List.of_mem_filter hm
    simp [hp] at h2

theorem regLookup_regErase_ne {α} {u u' : String} (h : u ≠ u')
    (l : List (String × α)) : regLookup u' (regErase u l) = regLookup u' l := by
  unfold regLookup
  rw [find?_regErase h l]

/- ********************************* -/
/- Timestamp-parsing lemmas          -/
/- ********************************* -/

theorem takeWhile_append_of_all {α} (p : α → Bool) {xs : List α} (ys : List α)
    (h : ∀ x ∈ xs, p x = true) :
    List.takeWhile p (xs ++ ys) = xs ++ List.takeWhile p ys := by
  induction xs with
  | nil => simp
  | cons a as ih =>
    have ha := h a (List.mem_cons_self _ _)
    simp only [List.cons_append, List.takeWhile_cons, ha, if_true]
    rw [ih (fun x hx => h x (List.mem_cons_of_mem _ hx))]

theorem afterLastChar_append {c : Char} {l2 : List Char} (h : c ∉ l2)
    (l1 : List Char) : afterLastChar c (l1 ++ l2) = afterLastChar c l1 ++ l2 := by
  unfold afterLastChar
  rw [List.reverse_append]
  rw [takeWhile_append_of_all _ _
    (by intro x hx; simp only [decide_eq_true_eq]
        exact fun he => h (he ▸ List.mem_reverse.mp hx))]
  rw [List.reverse_append, List.reverse_reverse]

theorem afterLastChar_last {c : Char} {l2 : List Char} (h : c ∉ l2)
    (l1 : List Char) : afterLastChar c (l1 ++ c :: l2) = l2 := by
  unfold afterLastChar
  rw [List.reverse_append, List.reverse_cons, List.append_assoc]
  rw [takeWhile_append_of_all _ _
    (by intro x hx; simp only [decide_eq_true_eq]
        exact fun he => h (he ▸ List.mem_reverse.mp hx))]
  rw [List.singleton_append, List.takeWhile_cons_of_neg (by simp)]
  simp

theorem digit_facts {c : Char} (h : isAsciiDigit c = true) :
    c.isWhitespace = false ∧ c ≠ '-' ∧ c ≠ '+' ∧ c ≠ '_' ∧ c ≠ '/' := by
  unfold isAsciiDigit at h
  simp only [Bool.and_eq_true, decide_eq_true_eq] at h
  refine ⟨?_, ?_, ?_, ?_, ?_⟩
  · unfold Char.isWhitespace
    have h1 : ¬ c = ' ' := by rintro rfl; simp at h
    have h2 : ¬ c = '\t' := by rintro rfl; simp at h
    have h3 : ¬ c = '\n' := by rintro rfl; simp at h
    have h4 : ¬ c = '\r' := by rintro rfl; simp at h
    simp [h1, h2, h3, h4]
  · rintro rfl; simp at h
  · rintro rfl; simp at h
  · rintro rfl; simp at h
  · rintro rfl; simp at h

theorem scanLld_digits {ds : List Char} (hne : ds ≠ [])
    (hd : ∀ c ∈ ds, isAsciiDigit c = true) :
    scanLld ds = some (min INT64_MAX (digitsToNat ds)) := by
  obtain ⟨c0, rest, rfl⟩ := List.exists_cons_of_ne_nil hne
  have h0 := hd c0 (List.mem_cons_self _ _)
  have hds : List.takeWhile isAsciiDigit (c0 :: rest) = c0 :: rest := by
    have := takeWhile_append_of_all isAsciiDigit [] hd
    simpa using this
  unfold scanLld
  rw [List.dropWhile_cons_of_neg (by simp [(digit_facts h0).1])]
  simp only [splitSign, if_neg (digit_facts h0).2.1, if_neg (digit_facts h0).2.2.1]
  rw [hds]
  rw [if_neg (by simp)]
  have hnn : (0 : Int) ≤ (digitsToNat (c0 :: rest) : Int) := Int.natCast_nonneg _
  have hmaxmin : INT64_MIN ≤ min INT64_MAX ((digitsToNat (c0 :: rest) : Int)) := by
    refine le_min ?_ ?_
    · unfold INT64_MIN INT64_MAX; norm_num
    · refine le_trans ?_ hnn
      unfold INT64_MIN; norm_num
  rw [one_mul, max_eq_right hmaxmin]

theorem toUInt64_min_int64max (n : Nat) :
    toUInt64 (min INT64_MAX (n : Int)) = min (2 ^ 63 - 1) n := by
  unfold toUInt64 INT64_MAX
  rcases le_or_lt (n : Int) (2 ^ 63 - 1) with h | h
  · rw [min_eq_right h]
    rw [Int.emod_eq_of_lt (Int.natCast_nonneg _) (by omega)]
    rw [Int.toNat_natCast]
    have hn : n ≤ 2 ^ 63 - 1 := by omega
    rw [Nat.min_eq_right hn]
  · rw [min_eq_left h.le]
    rw [Int.emod_eq_of_lt (by norm_num) (by norm_num)]
    have hn : 2 ^ 63 - 1 ≤ n := by omega
    rw [Nat.min_eq_left hn]
    rfl

theorem mem_of_getLast?_eq_some {α} : ∀ {l : List α} {c : α},
    l.getLast? = some c → c ∈ l
  | [a], c, h => by
    simp only [List.getLast?_singleton, Option.some.injEq] at h
    exact h ▸ List.mem_singleton_self a
  | a :: b :: bs, c, h => by
    rw [List.getLast?_cons_cons] at h
    exact List.mem_cons_of_mem a (mem_of_getLast?_eq_some h)

theorem timestampSuffix_concat (p : String) {ds : List Char} (_hne : ds ≠ [])
    (hd : ∀ c ∈ ds, isAsciiDigit c = true) :
    timestampSuffix (p ++ "_" ++ String.mk ds) = ds := by
  have hdata : (p ++ "_" ++ String.mk ds).data = p.data ++ '_' :: ds := by
    rw [String.data_append, String.data_append]
    simp [List.append_assoc]
  have hnoSlash : ∀ c ∈ ('_' :: ds), c ≠ '/' := by
    intro c hc
    rcases List.mem_cons.mp hc with rfl | hc
    · simp
    · exact (digit_facts (hd c hc)).2.2.2.2
  have hdrop : dropTrailingSlashOnce (p ++ "_" ++ String.mk ds)
      = p ++ "_" ++ String.mk ds := by
    unfold dropTrailingSlashOnce
    rw [hdata]
    rw [List.getLast?_append_of_ne_nil _ (List.cons_ne_nil _ _)]
    cases hlast : ('_' :: ds).getLast? with
    | none => rfl
    | some c =>
      have hc : c ∈ ('_' :: ds) := mem_of_getLast?_eq_some hlast
      simp [hnoSlash c hc]
  unfold timestampSuffix fragmentNameOf lastPathPart
  rw [hdrop, hdata]
  rw [afterLastChar_append (by simpa using fun hc => hnoSlash '/' hc rfl) p.data]
  have hcast : (String.mk (afterLastChar '/' p.data ++ '_' :: ds)).data
      = afterLastChar '/' p.data ++ '_' :: ds := rfl
  rw [hcast]
  exact afterLastChar_last
    (by intro hc; exact (digit_facts (hd '_' hc)).2.2.2.1 rfl) _

theorem fragmentTimestamp_concat (p : String) {ds : List Char} (hne : ds ≠ [])
    (hd : ∀ c ∈ ds, isAsciiDigit c = true) :
    fragmentTimestamp (p ++ "_" ++ String.mk ds) = min (2 ^ 63 - 1) (digitsToNat ds)
      ∧ hasParseableTimestamp (p ++ "_" ++ String.mk ds) = true := by
  have hsuf := timestampSuffix_concat p hne hd
  have hscan := scanLld_digits hne hd
  constructor
  · unfold fragmentTimestamp
    rw [hsuf, hscan]
    exact toUInt64_min_int64max _
  · unfold hasParseableTimestamp
    rw [hsuf, hscan]
    rfl

theorem fragmentTimestamp_le (u : String) : fragmentTimestamp u ≤ 2 ^ 64 - 1 := by
  cases h : scanLld (timestampSuffix u) with
  | none => simp [fragmentTimestamp, h]
  | some v =>
    simp only [fragmentTimestamp, h]
    unfold toUInt64
    have h1 : 0 ≤ v % (2 ^ 64 : Int) := Int.emod_nonneg v (by norm_num)
    have h2 : v % (2 ^ 64 : Int) < 2 ^ 64 := Int.emod_lt_of_pos v (by norm_num)
    omega

/- ********************************* -/
/- Fragment-selector lemmas          -/
/- ********************************* -/

theorem gatherFragments_eq_filterMap {snapshot : Nat} :
    ∀ (uris : List String) (t0 : Nat),
      (∀ u ∈ uris, hasParseableTimestamp u = true) →
      gatherFragments snapshot uris t0
        = uris.filterMap (fun u =>
            if fragmentTimestamp u ≤ snapshot then some (fragmentTimestamp u, u)
            else none) := by
  intro uris
  induction uris with
  | nil => intro t0 _; rfl
  | cons u rest ih =>
    intro t0 h
    have hu := h u (List.mem_cons_self _ _)
    unfold hasParseableTimestamp at hu
    obtain ⟨v, hv⟩ := Option.isSome_iff_exists.mp hu
    have hrest := ih (toUInt64 v) (fun x hx => h x (List.mem_cons_of_mem _ hx))
    have hts : fragmentTimestamp u = toUInt64 v := by
      unfold fragmentTimestamp; rw [hv]
    unfold gatherFragments
    simp only [hv, List.filterMap_cons, hrest, hts]
    by_cases hle : toUInt64 v ≤ snapshot
    · simp [hle]
    · simp [hle]

theorem get_sorted_eq_sort_filterMap {t0 snapshot : Nat} {uris : List String}
    (hwf : ∀ u ∈ uris, hasParseableTimestamp u = true) :
    get_sorted_fragment_uris t0 uris snapshot
      = List.insertionSort fragLe (uris.filterMap (fun u =>
          if fragmentTimestamp u ≤ snapshot then some (fragmentTimestamp u, u)
          else none)) := by
  unfold get_sorted_fragment_uris
  by_cases he : uris.isEmpty
  · have : uris = [] := by simpa using he
    subst this
    simp
  · rw [if_neg he, gatherFragments_eq_filterMap uris t0 hwf]

theorem insertionSort_eq_of_perm {l1 l2 : List (Nat × String)}
    (h : List.Perm l1 l2) :
    List.insertionSort fragLe l1 = List.insertionSort fragLe l2 :=
  List.eq_of_perm_of_sorted
    (((List.perm_insertionSort fragLe l1).trans h).trans
      (List.perm_insertionSort fragLe l2).symm)
    (List.sorted_insertionSort fragLe l1)
    (List.sorted_insertionSort fragLe l2)

/- ********************************* -/
/- Claim C1                          -/
/- ********************************* -/

/-- C1: the fragment list computed by `open_for_reads(u, T)` — the output
of `get_sorted_fragment_uris` over `get_fragment_uris` — contains only
fragments with parsed timestamp `≤ T`, is sorted ascending by
`(timestamp, URI string)`, and is identical across opens regardless of the
order in which the filesystem listing returned the fragment directories
(and of the scratch variable's initial value), for well-formed fragment
names. -/
theorem claim1_open_fragment_list (env env2 : Env) (arrayUri : String)
    (T t0 t02 : Nat)
    (hfile : env2.isFile = env.isFile)
    (hls : List.Perm (env2.ls (addTrailingSlash arrayUri))
      (env.ls (addTrailingSlash arrayUri)))
    (hwf : ∀ u ∈ get_fragment_uris env arrayUri, hasParseableTimestamp u = true) :
    (∀ p ∈ get_sorted_fragment_uris t0 (get_fragment_uris env arrayUri) T,
        p.1 ≤ T)
    ∧ (get_sorted_fragment_uris t0 (get_fragment_uris env arrayUri) T).Sorted fragLe
    ∧ get_sorted_fragment_uris t02 (get_fragment_uris env2 arrayUri) T
        = get_sorted_fragment_uris t0 (get_fragment_uris env arrayUri) T := by
  have hperm : List.Perm (get_fragment_uris env2 arrayUri)
      (get_fragment_uris env arrayUri) := by
    unfold get_fragment_uris
    rw [hfile]
    exact hls.filter _
  have hwf2 : ∀ u ∈ get_fragment_uris env2 arrayUri,
      hasParseableTimestamp u = true :=
    fun u hu => hwf u (hperm.mem_iff.mp hu)
  have he1 := @get_sorted_eq_sort_filterMap t0 T (get_fragment_uris env arrayUri) hwf
  have he2 := @get_sorted_eq_sort_filterMap t02 T (get_fragment_uris env2 arrayUri) hwf2
  refine ⟨?_, ?_, ?_⟩
  · intro p hp
    rw [he1] at hp
    have hp2 := (List.perm_insertionSort fragLe _).mem_iff.mp hp
    obtain ⟨u, hu, hval⟩ := List.mem_filterMap.mp hp2
    by_cases hle : fragmentTimestamp u ≤ T
    · rw [if_pos hle] at hval
      injection hval with hval
      subst hval
      exact hle
    · rw [if_neg hle] at hval
      simp at hval
  · rw [he1]
    exact List.sorted_insertionSort fragLe _
  · rw [he1, he2]
    exact insertionSort_eq_of_perm (hperm.filterMap _)

/-- Witness for C1 at the concrete environment `demoEnv` and its permuted
listing. -/
theorem claim1_witness :
    (∀ p ∈ get_sorted_fragment_uris 0 (get_fragment_uris demoEnv "arr") 10,
        p.1 ≤ 10)
    ∧ (get_sorted_fragment_uris 0 (get_fragment_uris demoEnv "arr") 10).Sorted fragLe
    ∧ get_sorted_fragment_uris 99 (get_fragment_uris demoEnvPermuted "arr") 10
        = get_sorted_fragment_uris 0 (get_fragment_uris demoEnv "arr") 10 :=
  claim1_open_fragment_list demoEnv demoEnvPermuted "arr" 10 0 99 rfl
    (by decide) (by decide)

/- ********************************* -/
/- Claim C5                          -/
/- ********************************* -/

/-- C5 counterexample: on an array with a fragment whose parsed timestamp
is `0` (directory `__f_0`), `open_for_reads(u, 0)` returns a non-empty
fragment list, so snapshot `T = 0` does not return an empty list
"regardless of the fragments' timestamps". -/
theorem claim5_counterexample :
    (array_open_for_reads demoEnv initSM "arr" 0 demoKey).1 = .ok
    ∧ (array_open_for_reads demoEnv initSM "arr" 0 demoKey).2.2.2
        = [{ fragUri := "arr/__f_0", fragTimestamp := 0, dense := true }]
    ∧ (array_open_for_reads demoEnv initSM "arr" 0 demoKey).2.2.2 ≠ [] := by
  refine ⟨by decide, by decide, by decide⟩

/-- C5 amended: `open_for_reads(u, 0)` selects exactly the fragments whose
parsed timestamp is `0`; in particular the fragment list is empty whenever
every fragment's parsed timestamp is positive. -/
theorem claim5_amended (t0 : Nat) (uris : List String)
    (hwf : ∀ u ∈ uris, hasParseableTimestamp u = true)
    (hpos : ∀ u ∈ uris, 0 < fragmentTimestamp u) :
    get_sorted_fragment_uris t0 uris 0 = [] := by
  rw [get_sorted_eq_sort_filterMap hwf]
  have hnil : uris.filterMap (fun u =>
      if fragmentTimestamp u ≤ 0 then some (fragmentTimestamp u, u)
      else none) = [] := by
    rw [List.filterMap_eq_nil_iff]
    intro u hu
    rw [if_neg (by have := hpos u hu; omega)]
  rw [hnil]
  rfl

/-- Witness for the amended C5. -/
theorem claim5_witness : get_sorted_fragment_uris 7 ["a/__f_3"] 0 = [] :=
  claim5_amended 7 ["a/__f_3"] (by decide) (by decide)

/- ********************************* -/
/- Claim C6                          -/
/- ********************************* -/

/-- C6 counterexample: the fragment name suffix `9223372036854775808`
(`2^63`) is a valid decimal `uint64`, but the `sscanf("%lld")` in the
selector saturates at `LLONG_MAX`, so the parsed timestamp is
`2^63 - 1 ≠ 2^63`. -/
theorem claim6_counterexample :
    fragmentTimestamp "a/__f_9223372036854775808" = 9223372036854775807
    ∧ fragmentTimestamp "a/__f_9223372036854775808" ≠ 9223372036854775808 := by
  refine ⟨by decide, by decide⟩

/-- C6 amended: for a fragment whose basename ends in `_` followed by
decimal digits, the parsed timestamp is exactly the digit value when it is
at most `2^63 - 1` (the signed saturation bound of the `%lld` conversion),
and is `min (2^63 - 1) value` in general; consequently a snapshot at
`T = UINT64_MAX` still includes every well-formed fragment. -/
theorem claim6_amended (p : String) {ds : List Char} (hne : ds ≠ [])
    (hd : ∀ c ∈ ds, isAsciiDigit c = true) :
    (digitsToNat ds ≤ 2 ^ 63 - 1 →
      fragmentTimestamp (p ++ "_" ++ String.mk ds) = digitsToNat ds)
    ∧ fragmentTimestamp (p ++ "_" ++ String.mk ds)
        = min (2 ^ 63 - 1) (digitsToNat ds)
    ∧ (∀ t0 uris, (∀ u ∈ uris, hasParseableTimestamp u = true) →
        ∀ u ∈ uris, (fragmentTimestamp u, u)
          ∈ get_sorted_fragment_uris t0 uris (2 ^ 64 - 1)) := by
  obtain ⟨hts, _⟩ := fragmentTimestamp_concat p hne hd
  refine ⟨?_, hts, ?_⟩
  · intro hle
    rw [hts, Nat.min_eq_right hle]
  · intro t0 uris hwf u hu
    rw [get_sorted_eq_sort_filterMap hwf]
    have hmem : (fragmentTimestamp u, u) ∈ uris.filterMap (fun x =>
        if fragmentTimestamp x ≤ 2 ^ 64 - 1 then some (fragmentTimestamp x, x)
        else none) :=
      List.mem_filterMap.mpr ⟨u, hu, by rw [if_pos (fragmentTimestamp_le u)]⟩
    exact ((List.perm_insertionSort fragLe _).mem_iff).mpr hmem

/-- Witness for the amended C6. -/
theorem claim6_witness :
    fragmentTimestamp ("a/__f" ++ "_" ++ String.mk ['1', '2', '3'])
      = digitsToNat ['1', '2', '3'] :=
  (claim6_amended "a/__f" (by decide) (by decide)).1 (by decide)

/- ********************************* -/
/- State-machine lemmas              -/
/- ********************************* -/

theorem withReads_reads (sm : SMState) (l : List (String × OpenArray)) :
    (sm.withReads l).openArraysForReads = l := rfl

theorem cntIncr_cnt (oa : OpenArray) : oa.cntIncr.cnt = oa.cnt + 1 := rfl

theorem cntDecr_cnt (oa : OpenArray) : oa.cntDecr.cnt = oa.cnt - 1 := rfl

theorem setEncryptionKey_cnt (oa : OpenArray) (k : EncKey) :
    ((oa.setEncryptionKey k).2).cnt = oa.cnt := by
  unfold OpenArray.setEncryptionKey
  cases oa.encryptionKey with
  | none => rfl
  | some k0 => by_cases h : k0 = k <;> simp [h]

theorem fileLock_cnt (env : Env) (oa : OpenArray) :
    ((oa.fileLock env).2).cnt = oa.cnt := by
  unfold OpenArray.fileLock
  cases oa.sharedFilelock with
  | some h => rfl
  | none =>
    cases env.filelockLockShared (joinPath oa.oaUri filelock_name) <;> rfl

theorem fileUnlock_fst_ok (env : Env) (oa : OpenArray)
    (hunlock : ∀ s h, env.filelockUnlock s h = true) :
    (oa.fileUnlock env).1 = .ok := by
  unfold OpenArray.fileUnlock
  cases oa.sharedFilelock with
  | none => rfl
  | some h => simp [hunlock]

theorem load_fragment_metadata_cnt (env : Env) :
    ∀ (l : List (Nat × String)) (oa : OpenArray),
      ((load_fragment_metadata env oa l).2.1).cnt = oa.cnt := by
  intro l
  induction l with
  | nil => intro oa; rfl
  | cons p rest ih =>
    intro oa
    obtain ⟨t, uri⟩ := p
    unfold load_fragment_metadata
    cases hm : oa.fragMetaFor uri with
    | some m => simpa using ih oa
    | none =>
      by_cases hl : env.fragLoadOk uri
      · simp only [hm, hl, if_true]
        exact ih _
      · simp only [hm, hl, if_false]
        exact ih oa

theorem close_lookup_none (env : Env) (sm : SMState) (u : String)
    (hl : regLookup u sm.openArraysForReads = none) :
    array_close_for_reads env sm u = (.ok, sm) := by
  unfold array_close_for_reads
  simp only [hl]

theorem close_state_of_pos (env : Env) (sm : SMState) (u : String)
    (oa : OpenArray) (hl : regLookup u sm.openArraysForReads = some oa)
    (hc : oa.cnt - 1 ≠ 0) :
    array_close_for_reads env sm u
      = (.ok, sm.withReads (regInsert u oa.cntDecr sm.openArraysForReads)) := by
  unfold array_close_for_reads
  simp only [hl]
  rw [if_neg (by simpa [cntDecr_cnt] using hc)]

theorem close_state_of_zero (env : Env) (sm : SMState) (u : String)
    (oa : OpenArray) (hunlock : ∀ s h, env.filelockUnlock s h = true)
    (hl : regLookup u sm.openArraysForReads = some oa) (hc : oa.cnt - 1 = 0) :
    array_close_for_reads env sm u
      = (.ok, sm.withReads (regErase u sm.openArraysForReads)) := by
  unfold array_close_for_reads
  simp only [hl]
  rw [if_pos (by simpa [cntDecr_cnt] using hc)]
  have hst := fileUnlock_fst_ok env oa.cntDecr hunlock
  cases hu : oa.cntDecr.fileUnlock env with
  | mk st oa2 =>
    rw [hu] at hst
    simp only at hst
    subst hst
    simp only [hu]

theorem close_noZeroRef (env : Env) (sm : SMState) (u : String)
    (hunlock : ∀ s h, env.filelockUnlock s h = true)
    (hns : NoZeroRef sm) : NoZeroRef (array_close_for_reads env sm u).2 := by
  cases hl : regLookup u sm.openArraysForReads with
  | none => rw [close_lookup_none env sm u hl]; exact hns
  | some oa =>
    by_cases hc : oa.cnt - 1 = 0
    · rw [close_state_of_zero env sm u oa hunlock hl hc]
      intro p hp
      exact hns p (mem_regErase hp)
    · rw [close_state_of_pos env sm u oa hl hc]
      intro p hp
      rcases mem_regInsert hp with rfl | hp2
      · simpa [cntDecr_cnt] using hc
      · exact hns p hp2

theorem owfRegister_ok_spec (sm : SMState) (u : String) (key : EncKey)
    (oa : OpenArray) (h : owfRegister sm u key = (.ok, oa)) :
    (regLookup u sm.openArraysForReads = none ∧ oa.cnt = 1)
    ∨ (∃ oa0, regLookup u sm.openArraysForReads = some oa0
        ∧ oa.cnt = oa0.cnt + 1) := by
  unfold owfRegister at h
  cases hl : regLookup u sm.openArraysForReads with
  | some oa0 =>
    simp only [hl] at h
    cases hs : oa0.setEncryptionKey key with
    | mk st oa1 =>
      rw [hs] at h
      cases st with
      | err e => simp at h
      | ok =>
        simp only at h
        refine Or.inr ⟨oa0, rfl, ?_⟩
        have h2 : oa = oa1.cntIncr := by
          injection h with h1 h2
          exact h2.symm
        have h3 : oa1.cnt = oa0.cnt := by
          have := setEncryptionKey_cnt oa0 key
          rw [hs] at this
          exact this
        rw [h2, cntIncr_cnt, h3]
  | none =>
    simp only [hl] at h
    cases hs : (newOpenArray u).setEncryptionKey key with
    | mk st oa1 =>
      rw [hs] at h
      cases st with
      | err e => simp at h
      | ok =>
        simp only at h
        refine Or.inl ⟨rfl, ?_⟩
        have h2 : oa = oa1.cntIncr := by
          injection h with h1 h2
          exact h2.symm
        have h3 : oa1.cnt = (newOpenArray u).cnt := by
          have := setEncryptionKey_cnt (newOpenArray u) key
          rw [hs] at this
          exact this
        rw [h2, cntIncr_cnt, h3]
        rfl

theorem owfRegister_ok_cnt_pos (sm : SMState) (u : String) (key : EncKey)
    (oa : OpenArray) (h : owfRegister sm u key = (.ok, oa)) : oa.cnt ≠ 0 := by
  rcases owfRegister_ok_spec sm u key oa h with ⟨_, hc⟩ | ⟨oa0, _, hc⟩ <;> omega

theorem owfLS_noZeroRef (env : Env) (sm : SMState) (u : String)
    (ot : ObjectType) (oa : OpenArray)
    (hunlock : ∀ s h, env.filelockUnlock s h = true)
    (hns : NoZeroRef sm) (hcnt : oa.cnt ≠ 0) :
    NoZeroRef (owfLockAndSchema env sm u ot oa).2 := by
  unfold owfLockAndSchema
  cases hfl : oa.fileLock env with
  | mk st oaL =>
    have hcL : oaL.cnt = oa.cnt := by
      have := fileLock_cnt env oa
      rw [hfl] at this
      exact this
    have hnsIns : NoZeroRef (sm.withReads (regInsert u oaL sm.openArraysForReads)) := by
      intro p hp
      rcases mem_regInsert hp with rfl | hp2
      · simpa [hcL] using hcnt
      · exact hns p hp2
    cases st with
    | err e =>
      simp only
      exact close_noZeroRef env _ u hunlock hnsIns
    | ok =>
      cases hsc : oaL.arraySchema with
      | some s => simp only [hsc]; exact hnsIns
      | none =>
        cases hload : loadArraySchemaAt env u ot with
        | none =>
          simp only [hsc, hload]
          exact close_noZeroRef env _ u hunlock hnsIns
        | some s =>
          simp only [hsc, hload]
          intro p hp
          rcases mem_regInsert hp with rfl | hp2
          · simpa [hcL] using hcnt
          · exact hnsIns p hp2

theorem owf_noZeroRef (env : Env) (sm : SMState) (u : String) (key : EncKey)
    (hunlock : ∀ s h, env.filelockUnlock s h = true)
    (hns : NoZeroRef sm) :
    NoZeroRef (array_open_without_fragments env sm u key).2 := by
  unfold array_open_without_fragments
  by_cases h1 : env.supportsScheme u = false
  · rw [if_pos h1]; exact hns
  · rw [if_neg h1]
    by_cases h2 : (object_type env u).2 ≠ .array ∧ (object_type env u).2 ≠ .keyValue
    · rw [if_pos h2]; exact hns
    · rw [if_neg h2]
      cases hr : owfRegister sm u key with
      | mk st oa =>
        cases st with
        | err e => exact hns
        | ok =>
          have hcnt := owfRegister_ok_cnt_pos sm u key oa hr
          apply owfLS_noZeroRef env _ u _ oa hunlock _ hcnt
          intro p hp
          rcases mem_regInsert hp with rfl | hp2
          · exact hcnt
          · exact hns p hp2

theorem open_noZeroRef (env : Env) (sm : SMState) (u : String) (T : Nat)
    (key : EncKey) (hunlock : ∀ s h, env.filelockUnlock s h = true)
    (hns : NoZeroRef sm) :
    NoZeroRef (array_open_for_reads env sm u T key).2.1 := by
  unfold array_open_for_reads
  cases ho : array_open_without_fragments env sm u key with
  | mk st sm1 =>
    have hns1 : NoZeroRef sm1 := by
      have := owf_noZeroRef env sm u key hunlock hns
      rw [ho] at this
      exact this
    cases st with
    | err e => exact hns1
    | ok =>
      simp only
      cases hl : regLookup u sm1.openArraysForReads with
      | none => simp only [hl]; exact hns1
      | some oa =>
        simp only [hl]
        have hcnt : oa.cnt ≠ 0 := hns1 (u, oa) (regLookup_mem hl)
        cases hld : load_fragment_metadata env oa
            (get_sorted_fragment_uris 0 (get_fragment_uris env u) T) with
        | mk st2 r =>
          obtain ⟨oa2, metas⟩ := r
          have hc2 : oa2.cnt = oa.cnt := by
            have := load_fragment_metadata_cnt env
              (get_sorted_fragment_uris 0 (get_fragment_uris env u) T) oa
            rw [hld] at this
            exact this
          have hnsIns : NoZeroRef
              (sm1.withReads (regInsert u oa2 sm1.openArraysForReads)) := by
            intro p hp
            rcases mem_regInsert hp with rfl | hp2
            · simpa [hc2] using hcnt
            · exact hns1 p hp2
          cases st2 with
          | err e =>
            simp only [hld]
            exact close_noZeroRef env _ u hunlock hnsIns
          | ok =>
            simp only [hld]
            exact hnsIns

theorem stepOp_noZeroRef (env : Env)
    (hunlock : ∀ s h, env.filelockUnlock s h = true) (op : Op) (sm : SMState)
    (hns : NoZeroRef sm) : NoZeroRef (stepOp env sm op) := by
  cases op with
  | openR u t k => exact open_noZeroRef env sm u t k hunlock hns
  | closeR u => exact close_noZeroRef env sm u hunlock hns

theorem runOps_noZeroRef (env : Env)
    (hunlock : ∀ s h, env.filelockUnlock s h = true) :
    ∀ (ops : List Op) (sm : SMState), NoZeroRef sm →
      NoZeroRef (runOps env sm ops) := by
  intro ops
  induction ops with
  | nil => intro sm hns; exact hns
  | cons op rest ih =>
    intro sm hns
    exact ih _ (stepOp_noZeroRef env hunlock op sm hns)

theorem initSM_noZeroRef : NoZeroRef initSM := by
  intro p hp
  simp [initSM] at hp

/- ********************************* -/
/- Claim C2                          -/
/- ********************************* -/

/-- C2 counterexample: after `open; close` under a VFS whose shared
filelock release fails, `array_close_for_reads` returns the release error
without erasing the entry (storage_manager.cc:130-135), leaving it in the
reads registry with `ref_count = 0` — refuting the claim exactly in the
case it extends to (a reported release error). -/
theorem claim2_counterexample :
    ((regLookup "arr" (runOps demoEnvUnlockFails initSM
        [Op.openR "arr" 0 demoKey, Op.closeR "arr"]).openArraysForReads).map
      (fun oa => oa.cnt)) = some 0
    ∧ ¬ NoZeroRef (runOps demoEnvUnlockFails initSM
        [Op.openR "arr" 0 demoKey, Op.closeR "arr"]) := by
  refine ⟨by decide, ?_⟩
  intro h
  exact h ("arr",
    { oaUri := "arr", cnt := 0, arraySchema := some 7,
      encryptionKey := some demoKey, sharedFilelock := some 1,
      fragMeta := [{ fragUri := "arr/__f_0", fragTimestamp := 0,
                     dense := true }] })
    (by decide) rfl

/-- C2 amended: provided every shared-filelock release succeeds, a close
that brings the reference count to zero removes the entry, and after any
sequence of open/close operations no entry with `ref_count = 0` remains in
the reads registry.  (When the release fails, the code returns the error
and leaves the zero-count entry registered — see the counterexample.) -/
theorem claim2_amended (env : Env)
    (hunlock : ∀ s h, env.filelockUnlock s h = true) :
    (∀ sm u oa, regLookup u sm.openArraysForReads = some oa → oa.cnt = 1 →
      (array_close_for_reads env sm u).1 = .ok
      ∧ regLookup u (array_close_for_reads env sm u).2.openArraysForReads
          = none)
    ∧ (∀ ops, NoZeroRef (runOps env initSM ops)) := by
  constructor
  · intro sm u oa hl hc
    rw [close_state_of_zero env sm u oa hunlock hl (by omega)]
    exact ⟨rfl, regLookup_regErase_self u _⟩
  · intro ops
    exact runOps_noZeroRef env hunlock ops initSM initSM_noZeroRef

/-- Witness for the amended C2. -/
theorem claim2_witness :
    NoZeroRef (runOps demoEnv initSM
      [Op.openR "arr" 0 demoKey, Op.closeR "arr"]) :=
  (claim2_amended demoEnv (fun _ _ => rfl)).2
    [Op.openR "arr" 0 demoKey, Op.closeR "arr"]

/- ********************************* -/
/- Rollback lemmas (open failures)   -/
/- ********************************* -/

theorem close_after_insert (env : Env) (sm1 : SMState) (u : String)
    (oaL : OpenArray) (origCnt : Option Nat)
    (hunlock : ∀ s h, env.filelockUnlock s h = true)
    (hlk : regLookup u sm1.openArraysForReads = some oaL)
    (hrel : (origCnt = none ∧ oaL.cnt = 1)
        ∨ (∃ c, origCnt = some c ∧ c ≠ 0 ∧ oaL.cnt = c + 1)) :
    ((regLookup u
        (array_close_for_reads env sm1 u).2.openArraysForReads).map
      (fun oa => oa.cnt)) = origCnt := by
  rcases hrel with ⟨ho, hc⟩ | ⟨c, ho, hcnz, hc⟩
  · rw [close_state_of_zero env sm1 u oaL hunlock hlk (by omega)]
    rw [ho]
    have hison : regLookup u
        (sm1.withReads (regErase u sm1.openArraysForReads)).openArraysForReads
        = none := regLookup_regErase_self u _
    simp [hison]
  · rw [close_state_of_pos env sm1 u oaL hlk (by omega)]
    have hlkIns : regLookup u (sm1.withReads
        (regInsert u oaL.cntDecr sm1.openArraysForReads)).openArraysForReads
        = some oaL.cntDecr := regLookup_regInsert_self u _ _
    simp only [hlkIns, Option.map_some', cntDecr_cnt, hc, ho]
    congr 1

/-- Case analysis of the filelock/schema phase: it either fails with the
per-URI reference count rolled back to `origCnt`, or succeeds with the
entry registered and its count unchanged.  `hrel` relates the entry's
incremented count to the pre-open count `origCnt`. -/
theorem owfLS_cases (env : Env) (sm1 : SMState) (u : String) (ot : ObjectType)
    (oa : OpenArray) (origCnt : Option Nat)
    (hunlock : ∀ s h, env.filelockUnlock s h = true)
    (hrel : (origCnt = none ∧ oa.cnt = 1)
        ∨ (∃ c, origCnt = some c ∧ c ≠ 0 ∧ oa.cnt = c + 1)) :
    (∃ e smE, owfLockAndSchema env sm1 u ot oa = (.err e, smE)
      ∧ ((regLookup u smE.openArraysForReads).map (fun x => x.cnt)) = origCnt)
    ∨ (∃ smO oaF, owfLockAndSchema env sm1 u ot oa = (.ok, smO)
        ∧ regLookup u smO.openArraysForReads = some oaF
        ∧ oaF.cnt = oa.cnt) := by
  have hrelOf : ∀ (oaX : OpenArray), oaX.cnt = oa.cnt →
      ((origCnt = none ∧ oaX.cnt = 1)
       ∨ (∃ c, origCnt = some c ∧ c ≠ 0 ∧ oaX.cnt = c + 1)) := by
    intro oaX hX
    rcases hrel with ⟨h1, h2⟩ | ⟨c, h1, h2, h3⟩
    · exact Or.inl ⟨h1, by omega⟩
    · exact Or.inr ⟨c, h1, h2, by omega⟩
  unfold owfLockAndSchema
  split
  next e2 oaL hfl =>
    have hcL : oaL.cnt = oa.cnt := by
      have := fileLock_cnt env oa
      rw [hfl] at this
      exact this
    refine Or.inl ⟨e2, _, rfl, ?_⟩
    exact close_after_insert env _ u oaL _ hunlock
      (regLookup_regInsert_self u oaL _) (hrelOf oaL hcL)
  next oaL hfl =>
    have hcL : oaL.cnt = oa.cnt := by
      have := fileLock_cnt env oa
      rw [hfl] at this
      exact this
    split
    next s hsc =>
      exact Or.inr ⟨_, oaL, rfl, regLookup_regInsert_self u oaL _, hcL⟩
    next hsc =>
      split
      next hload =>
        refine Or.inl ⟨.schemaLoad, _, rfl, ?_⟩
        exact close_after_insert env _ u oaL _ hunlock
          (regLookup_regInsert_self u oaL _) (hrelOf oaL hcL)
      next s hload =>
        exact Or.inr ⟨_, { oaL with arraySchema := some s }, rfl,
          regLookup_regInsert_self u _ _, hcL⟩

/-- Case analysis of `array_open_without_fragments`: it either fails
leaving the per-URI reference count exactly as before, or succeeds leaving
the entry registered with the count incremented (1 for a fresh entry).
Requires that rollback filelock releases succeed and that the input
registry has no zero-count entries. -/
theorem owf_cases (env : Env) (sm : SMState) (u : String) (key : EncKey)
    (hunlock : ∀ s h, env.filelockUnlock s h = true)
    (hns : NoZeroRef sm) :
    (∃ e smE, array_open_without_fragments env sm u key = (.err e, smE)
      ∧ ((regLookup u smE.openArraysForReads).map (fun oa => oa.cnt))
          = ((regLookup u sm.openArraysForReads).map (fun oa => oa.cnt)))
    ∨ (∃ smO oaF, array_open_without_fragments env sm u key = (.ok, smO)
        ∧ regLookup u smO.openArraysForReads = some oaF
        ∧ ((regLookup u sm.openArraysForReads = none ∧ oaF.cnt = 1)
           ∨ (∃ oa0, regLookup u sm.openArraysForReads = some oa0
               ∧ oaF.cnt = oa0.cnt + 1))) := by
  unfold array_open_without_fragments
  split
  next h1 => exact Or.inl ⟨.unsupportedScheme, sm, rfl, rfl⟩
  next h1 =>
    split
    next h2 => exact Or.inl ⟨.arrayNotExist, sm, rfl, rfl⟩
    next h2 =>
      split
      next e _ hr => exact Or.inl ⟨e, sm, rfl, rfl⟩
      next oa hr =>
        have hspec := owfRegister_ok_spec sm u key oa hr
        have hrel : ((regLookup u sm.openArraysForReads).map
              (fun x => x.cnt) = none ∧ oa.cnt = 1)
            ∨ (∃ c, (regLookup u sm.openArraysForReads).map
                  (fun x => x.cnt) = some c ∧ c ≠ 0 ∧ oa.cnt = c + 1) := by
          rcases hspec with ⟨hn, hc⟩ | ⟨oa0, hs0, hc⟩
          · exact Or.inl ⟨by rw [hn]; rfl, hc⟩
          · refine Or.inr ⟨oa0.cnt, by rw [hs0]; rfl, ?_, hc⟩
            exact hns (u, oa0) (regLookup_mem hs0)
        rcases owfLS_cases env
            (sm.withReads (regInsert u oa sm.openArraysForReads)) u
            ((object_type env u).2) oa
            ((regLookup u sm.openArraysForReads).map (fun x => x.cnt))
            hunlock hrel with
          ⟨e, smE, heq, hcnt⟩ | ⟨smO, oaF, heq, hlkF, hcF⟩
        · exact Or.inl ⟨e, smE, heq, hcnt⟩
        · refine Or.inr ⟨smO, oaF, heq, hlkF, ?_⟩
          rcases hspec with ⟨hn, hc⟩ | ⟨oa0, hs0, hc⟩
          · exact Or.inl ⟨hn, by omega⟩
          · exact Or.inr ⟨oa0, hs0, by omega⟩

/- ********************************* -/
/- Claim C3                          -/
/- ********************************* -/

/-- C3 counterexample: with a failing schema load *and* a VFS whose
filelock release fails, a failed open of a freshly created entry leaves
the entry in the reads registry (the rollback's `array_close_for_reads`
returns the release error without erasing it), refuting the claim that a
freshly created entry is always absent after a failed open. -/
theorem claim3_counterexample :
    (array_open_for_reads demoEnvBadSchema initSM "arr" 0 demoKey).1
      = .err .schemaLoad
    ∧ regLookup "arr" initSM.openArraysForReads = none
    ∧ regLookup "arr"
        (array_open_for_reads demoEnvBadSchema initSM "arr" 0
          demoKey).2.1.openArraysForReads
      = some { oaUri := "arr", cnt := 0, arraySchema := none,
               encryptionKey := some demoKey, sharedFilelock := some 1,
               fragMeta := [] } := by
  refine ⟨by decide, by decide, by decide⟩

/-- C3 amended: if `open_for_reads` fails at any step, then — provided
every rollback filelock release succeeds and the input registry has no
zero-count entries — the caller-visible schema pointer is null, the
entry's reference count is restored to its pre-call value, and an entry
freshly created by this call is absent from the registry afterwards. -/
theorem claim3_amended (env : Env) (sm : SMState) (arrayUri : String)
    (T : Nat) (key : EncKey) (e : ErrKind)
    (hunlock : ∀ s h, env.filelockUnlock s h = true)
    (hns : NoZeroRef sm)
    (herr : (array_open_for_reads env sm arrayUri T key).1 = .err e) :
    (array_open_for_reads env sm arrayUri T key).2.2.1 = none
    ∧ ((regLookup arrayUri
          (array_open_for_reads env sm arrayUri T
            key).2.1.openArraysForReads).map (fun oa => oa.cnt))
        = ((regLookup arrayUri sm.openArraysForReads).map (fun oa => oa.cnt))
    ∧ (regLookup arrayUri sm.openArraysForReads = none →
        regLookup arrayUri
          (array_open_for_reads env sm arrayUri T
            key).2.1.openArraysForReads = none) := by
  rcases owf_cases env sm arrayUri key hunlock hns with
    ⟨e2, smE, heq, hcnt⟩ | ⟨smO, oaF, heq, hlkF, hspec⟩
  · have hopen : array_open_for_reads env sm arrayUri T key
        = (.err e2, smE, none, []) := by
      unfold array_open_for_reads
      rw [heq]
    rw [hopen]
    refine ⟨rfl, hcnt, ?_⟩
    intro hno
    rw [hno] at hcnt
    simp only [Option.map_none'] at hcnt
    exact Option.map_eq_none'.mp hcnt
  · have hopen1 : array_open_for_reads env sm arrayUri T key
        = match load_fragment_metadata env oaF
            (get_sorted_fragment_uris 0 (get_fragment_uris env arrayUri)
              T) with
          | (.err e3, oa2, _) =>
            (.err e3, (array_close_for_reads env
              (smO.withReads (regInsert arrayUri oa2 smO.openArraysForReads))
              arrayUri).2, none, [])
          | (.ok, oa2, metas) =>
            (.ok, smO.withReads (regInsert arrayUri oa2 smO.openArraysForReads),
             oaF.arraySchema, metas) := by
      unfold array_open_for_reads
      rw [heq]
      simp only []
      rw [hlkF]
    cases hld : load_fragment_metadata env oaF
        (get_sorted_fragment_uris 0 (get_fragment_uris env arrayUri) T) with
    | mk st2 r =>
      obtain ⟨oa2, metas⟩ := r
      rw [hld] at hopen1
      cases st2 with
      | ok =>
        rw [hopen1] at herr
        simp at herr
      | err e3 =>
        have hc2 : oa2.cnt = oaF.cnt := by
          have := load_fragment_metadata_cnt env
            (get_sorted_fragment_uris 0 (get_fragment_uris env arrayUri) T) oaF
          rw [hld] at this
          exact this
        have hrel : (((regLookup arrayUri sm.openArraysForReads).map
              (fun x => x.cnt)) = none ∧ oa2.cnt = 1)
            ∨ (∃ c, ((regLookup arrayUri sm.openArraysForReads).map
                  (fun x => x.cnt)) = some c ∧ c ≠ 0 ∧ oa2.cnt = c + 1) := by
          rcases hspec with ⟨hn, hcF⟩ | ⟨oa0, hs0, hcF⟩
          · exact Or.inl ⟨by rw [hn]; rfl, by omega⟩
          · exact Or.inr ⟨oa0.cnt, by rw [hs0]; rfl,
              hns (arrayUri, oa0) (regLookup_mem hs0), by omega⟩
        have hmap := close_after_insert env
          (smO.withReads (regInsert arrayUri oa2 smO.openArraysForReads))
          arrayUri oa2 _ hunlock
          (regLookup_regInsert_self arrayUri oa2 _) hrel
        rw [hopen1]
        refine ⟨rfl, hmap, ?_⟩
        intro hno
        rw [hno] at hmap
        simp only [Option.map_none'] at hmap
        exact Option.map_eq_none'.mp hmap

/-- Witness for the amended C3: a failed open (schema load fails, filelock
release succeeds) on a fresh URI leaves the registry without the entry and
a null schema pointer. -/
theorem claim3_witness :
    (array_open_for_reads { demoEnv with loadSchemaAt := fun _ => none }
        initSM "arr" 0 demoKey).2.2.1 = none
    ∧ ((regLookup "arr"
          (array_open_for_reads { demoEnv with loadSchemaAt := fun _ => none }
            initSM "arr" 0 demoKey).2.1.openArraysForReads).map
        (fun oa => oa.cnt))
        = ((regLookup "arr" initSM.openArraysForReads).map (fun oa => oa.cnt))
    ∧ (regLookup "arr" initSM.openArraysForReads = none →
        regLookup "arr"
          (array_open_for_reads { demoEnv with loadSchemaAt := fun _ => none }
            initSM "arr" 0 demoKey).2.1.openArraysForReads = none) :=
  claim3_amended { demoEnv with loadSchemaAt := fun _ => none } initSM "arr" 0
    demoKey .schemaLoad (fun _ _ => rfl) initSM_noZeroRef (by decide)

/- ********************************* -/
/- Claim C4                          -/
/- ********************************* -/

/-- C4: opening an array that is already open for reads under key `K1`
with a different key `K2` fails with `EncryptionMismatch` and leaves the
whole coordinator state — in particular the entry's reference count of 1 —
unchanged (the key check happens before the count increment,
storage_manager.cc:1513-1517). -/
theorem claim4_encryption_mismatch (env : Env) (sm : SMState)
    (arrayUri : String) (T : Nat) (oa : OpenArray) (k1 k2 : EncKey)
    (hs : env.supportsScheme arrayUri = true)
    (hobj : (object_type env arrayUri).2 = .array
        ∨ (object_type env arrayUri).2 = .keyValue)
    (hlk : regLookup arrayUri sm.openArraysForReads = some oa)
    (hkey : oa.encryptionKey = some k1)
    (hne : k2 ≠ k1) (hcnt : oa.cnt = 1) :
    array_open_for_reads env sm arrayUri T k2
      = (.err .encryptionMismatch, sm, none, [])
    ∧ ((regLookup arrayUri sm.openArraysForReads).map (fun x => x.cnt))
        = some 1 := by
  have hreg : owfRegister sm arrayUri k2 = (.err .encryptionMismatch, oa) := by
    unfold owfRegister
    rw [hlk]
    simp only []
    unfold OpenArray.setEncryptionKey
    rw [hkey]
    simp only []
    rw [if_neg (fun h => hne h.symm)]
  have howf : array_open_without_fragments env sm arrayUri k2
      = (.err .encryptionMismatch, sm) := by
    unfold array_open_without_fragments
    rw [if_neg (by simp [hs])]
    rw [if_neg (by rcases hobj with h | h <;> simp [h])]
    rw [hreg]
  have hopen : array_open_for_reads env sm arrayUri T k2
      = (.err .encryptionMismatch, sm, none, []) := by
    unfold array_open_for_reads
    rw [howf]
  exact ⟨hopen, by rw [hlk]; simp [hcnt]⟩

/-- Witness for C4 at the concrete post-open state `demoSMOpen`. -/
theorem claim4_witness :
    array_open_for_reads demoEnv demoSMOpen "arr" 10 demoKey2
      = (.err .encryptionMismatch, demoSMOpen, none, [])
    ∧ ((regLookup "arr" demoSMOpen.openArraysForReads).map (fun x => x.cnt))
        = some 1 :=
  claim4_encryption_mismatch demoEnv demoSMOpen "arr" 10 demoOa demoKey
    demoKey2 (by decide) (Or.inl (by decide)) (by decide) (by decide)
    (by decide) (by decide)

/- ********************************* -/
/- countKey lemmas                   -/
/- ********************************* -/

theorem countKey_regInsert_self {α} (u : String) (v : α)
    (l : List (String × α)) : countKey u (regInsert u v l) = 1 := by
  unfold countKey regInsert regErase
  rw [List.filter_cons, if_pos (by simp)]
  have hnil : (l.filter (fun p => p.1 != u)).filter (fun p => p.1 == u)
      = [] := by
    rw [List.filter_filter]
    apply List.filter_eq_nil_iff.mpr
    intro a _
    simp
  simp [hnil]

theorem filter_key_regErase {α} {u u' : String} (h : u ≠ u')
    (l : List (String × α)) :
    (regErase u l).filter (fun p => p.1 == u') = l.filter (fun p => p.1 == u') := by
  unfold regErase
  rw [List.filter_filter]
  apply List.filter_congr
  intro a _
  by_cases ha : a.1 = u'
  · simp [ha, Ne.symm h]
  · simp [ha]

theorem countKey_regErase_le {α} (u u' : String) (l : List (String × α)) :
    countKey u' (regErase u l) ≤ countKey u' l := by
  by_cases h : u = u'
  · subst h
    have hnil : (regErase u l).filter (fun p => p.1 == u) = [] := by
      unfold regErase
      rw [List.filter_filter]
      apply List.filter_eq_nil_iff.mpr
      intro a _
      simp
    unfold countKey
    simp [hnil]
  · unfold countKey
    rw [filter_key_regErase h]

theorem countKey_regInsert_ne {α} {u u' : String} (h : u' ≠ u) (v : α)
    (l : List (String × α)) : countKey u' (regInsert u v l) = countKey u' l := by
  unfold countKey regInsert
  rw [List.filter_cons, if_neg (by simp [Ne.symm h])]
  exact congrArg List.length (filter_key_regErase (Ne.symm h) l)

/- ********************************* -/
/- Claim C7                          -/
/- ********************************* -/

/-- C7: `xunlock` fails without changing state when no exclusive filelock
was recorded for the URI; a successful `xunlock` has released the recorded
filelock through the VFS, erased it from the map and released the global
exclusive mutex; an `xlock` whose filelock acquisition fails releases the
global exclusive mutex and records nothing; and both operations preserve
"at most one exclusive filelock per URI". -/
theorem claim7_xlock_pairing (env : Env) (sm : SMState) (arrayUri : String) :
    (regLookup arrayUri sm.xFilelocks = none →
      array_xunlock env sm arrayUri = (.err .xlockMissing, sm))
    ∧ (∀ sm2, array_xunlock env sm arrayUri = (.ok, sm2) →
        regLookup arrayUri sm2.xFilelocks = none
        ∧ sm2.xlockMtxHeld = false
        ∧ (∀ fl, regLookup arrayUri sm.xFilelocks = some fl →
            fl ≠ INVALID_FILELOCK →
            env.filelockUnlock (joinPath arrayUri filelock_name) fl = true))
    ∧ (env.filelockLockExclusive (joinPath arrayUri filelock_name) = none →
        array_xlock env sm arrayUri
          = (.err .lockFailure, { sm with xlockMtxHeld := false })
        ∧ (array_xlock env sm arrayUri).2.xFilelocks = sm.xFilelocks)
    ∧ ((∀ w, countKey w sm.xFilelocks ≤ 1) →
        (∀ w, countKey w (array_xlock env sm arrayUri).2.xFilelocks ≤ 1)
        ∧ (∀ w, countKey w (array_xunlock env sm arrayUri).2.xFilelocks ≤ 1)) := by
  refine ⟨?_, ?_, ?_, ?_⟩
  · intro h
    unfold array_xunlock
    rw [h]
  · intro sm2 hok
    unfold array_xunlock at hok
    cases hx : regLookup arrayUri sm.xFilelocks with
    | none =>
      rw [hx] at hok
      simp at hok
    | some fl =>
      rw [hx] at hok
      simp only [] at hok
      by_cases hcond : fl ≠ INVALID_FILELOCK ∧
          env.filelockUnlock (joinPath arrayUri filelock_name) fl = false
      · rw [if_pos hcond] at hok
        simp at hok
      · rw [if_neg hcond] at hok
        injection hok with h1 h2
        subst h2
        refine ⟨regLookup_regErase_self arrayUri _, rfl, ?_⟩
        intro fl2 hfl2 hinv
        injection hfl2 with hfe
        subst hfe
        rcases not_and_or.mp hcond with hbad | hgood
        · exact absurd hinv (by simpa using hbad)
        · cases hbb : env.filelockUnlock (joinPath arrayUri filelock_name) fl with
          | false => exact absurd hbb hgood
          | true => rfl
  · intro h
    unfold array_xlock
    rw [h]
    exact ⟨rfl, rfl⟩
  · intro hbound
    constructor
    · intro w
      unfold array_xlock
      cases hx : env.filelockLockExclusive (joinPath arrayUri filelock_name) with
      | none => exact hbound w
      | some fl =>
        by_cases hw : w = arrayUri
        · rw [hw]
          show countKey arrayUri (regInsert arrayUri fl sm.xFilelocks) ≤ 1
          rw [countKey_regInsert_self]
        · show countKey w (regInsert arrayUri fl sm.xFilelocks) ≤ 1
          rw [countKey_regInsert_ne hw]
          exact hbound w
    · intro w
      unfold array_xunlock
      cases hx : regLookup arrayUri sm.xFilelocks with
      | none => exact hbound w
      | some fl =>
        simp only []
        by_cases hcond : fl ≠ INVALID_FILELOCK ∧
            env.filelockUnlock (joinPath arrayUri filelock_name) fl = false
        · rw [if_pos hcond]
          exact hbound w
        · rw [if_neg hcond]
          exact le_trans (countKey_regErase_le arrayUri w _) (hbound w)

/-- Witness for C7: concrete unlock-without-lock failure and a concrete
failed exclusive acquisition. -/
theorem claim7_witness :
    array_xunlock demoEnv initSM "arr" = (.err .xlockMissing, initSM)
    ∧ array_xlock demoEnvNoXLock initSM "arr"
        = (.err .lockFailure, { initSM with xlockMtxHeld := false }) :=
  ⟨(claim7_xlock_pairing demoEnv initSM "arr").1 (by decide),
   ((claim7_xlock_pairing demoEnvNoXLock initSM "arr").2.2.1 (by decide)).1⟩

/- ********************************* -/
/- Claim C8                          -/
/- ********************************* -/

/-- C8: `cancel_all_tasks` is idempotent — `N ≥ 1` calls leave the same
observable state as one call; a call that finds the cancellation flag
already set returns immediately without changing anything; and after a
completed cancellation the flag is cleared.  The hypothesis is the
quiescence condition under which the call's wait returns. -/
theorem claim8_cancel_idempotent (sm : SMState)
    (hq : sm.queriesInProgress = 0) (n : Nat) :
    cancel_all_tasks^[n + 1] sm = cancel_all_tasks sm
    ∧ (sm.cancellationInProgress = true → cancel_all_tasks sm = sm)
    ∧ (sm.cancellationInProgress = false →
        cancellation_in_progress (cancel_all_tasks sm) = false) := by
  have hfix : cancel_all_tasks (cancel_all_tasks sm) = cancel_all_tasks sm := by
    by_cases h : sm.cancellationInProgress <;> simp [cancel_all_tasks, h]
  refine ⟨?_, ?_, ?_⟩
  · rw [Function.iterate_succ_apply]
    exact Function.iterate_fixed hfix n
  · intro h
    unfold cancel_all_tasks
    rw [if_pos h]
  · intro h
    unfold cancellation_in_progress cancel_all_tasks
    rw [if_neg (by simp [h])]

/-- Witness for C8: three calls equal one call on the initial state. -/
theorem claim8_witness :
    cancel_all_tasks^[3] initSM = cancel_all_tasks initSM :=
  (claim8_cancel_idempotent initSM rfl 2).1

/- ********************************* -/
/- Claim C9                          -/
/- ********************************* -/

theorem classifyChildren_skip (pre rest : List String)
    (h : ∀ x ∈ pre, childSentinelType x = none) :
    classifyChildren (pre ++ rest) = classifyChildren rest := by
  induction pre with
  | nil => rfl
  | cons a as ih =>
    have ha := h a (List.mem_cons_self _ _)
    unfold childSentinelType at ha
    by_cases h1 : strEndsWith a group_filename = true
    · rw [if_pos h1] at ha; simp at ha
    · rw [if_neg h1] at ha
      by_cases h2 : strEndsWith a kv_schema_filename = true
      · rw [if_pos h2] at ha; simp at ha
      · rw [if_neg h2] at ha
        by_cases h3 : strEndsWith a array_schema_filename = true
        · rw [if_pos h3] at ha; simp at ha
        · simp only [List.cons_append]
          simp only [classifyChildren]
          rw [if_neg h1, if_neg h2, if_neg h3]
          exact ih (fun x hx => h x (List.mem_cons_of_mem _ hx))

theorem classifyChildren_first (c : String) (rest : List String)
    (ty : ObjectType) (hc : childSentinelType c = some ty) :
    classifyChildren (c :: rest) = ty := by
  unfold childSentinelType at hc
  unfold classifyChildren
  by_cases h1 : strEndsWith c group_filename = true
  · rw [if_pos h1] at hc
    rw [if_pos h1]
    exact Option.some.inj hc
  · rw [if_neg h1] at hc
    rw [if_neg h1]
    by_cases h2 : strEndsWith c kv_schema_filename = true
    · rw [if_pos h2] at hc
      rw [if_pos h2]
      exact Option.some.inj hc
    · rw [if_neg h2] at hc
      rw [if_neg h2]
      by_cases h3 : strEndsWith c array_schema_filename = true
      · rw [if_pos h3] at hc
        rw [if_pos h3]
        exact Option.some.inj hc
      · rw [if_neg h3] at hc
        simp at hc

/-- C9: `object_type` never fails merely because the URI is not a TileDB
object — for a non-S3 URI that is not a directory it returns OK with
`INVALID`, and for a directory it returns the sentinel type of the first
child (in VFS listing order) whose name ends with a sentinel filename, so
a directory with several sentinel files is classified by listing order,
not by a fixed precedence. -/
theorem claim9_object_type (env : Env) (uri : String)
    (hns3 : env.isS3 uri = false) :
    (object_type env uri).1 = .ok
    ∧ (env.isDir uri = false → object_type env uri = (.ok, .invalid))
    ∧ (env.isDir uri = true →
        ∀ pre c post ty, env.ls uri = pre ++ c :: post →
          (∀ x ∈ pre, childSentinelType x = none) →
          childSentinelType c = some ty →
          (object_type env uri).2 = ty) := by
  unfold object_type
  rw [if_neg (by simp [hns3])]
  refine ⟨?_, ?_, ?_⟩
  · by_cases hd : env.isDir uri = true
    · rw [if_pos hd]
    · rw [if_neg hd]
  · intro hd
    rw [if_neg (by simp [hd])]
  · intro hd pre c post ty hls hpre hc
    rw [if_pos hd]
    show classifyChildren (env.ls uri) = ty
    rw [hls, classifyChildren_skip pre _ hpre]
    exact classifyChildren_first c post ty hc

/-- Witness for C9: the directory `"multi"` holds a key-value sentinel
before an array sentinel in listing order and is classified `KEY_VALUE`. -/
theorem claim9_witness : (object_type demoEnvMulti "multi").2 = .keyValue :=
  (claim9_object_type demoEnvMulti "multi" rfl).2.2 rfl
    ["multi/a.txt"] "multi/__kv_schema.tdb" ["multi/__array_schema.tdb"]
    .keyValue (by decide) (by decide) (by decide)

/- ********************************* -/
/- Claim C10                         -/
/- ********************************* -/

/-- C10: whenever `read_from_cache` returns OK, the output buffer's size
is `nbytes` and its offset is reset to 0 — also on a reported cache miss
(`in_cache = false`), since `set_size`/`reset_offset` run unconditionally
after the cache read. -/
theorem claim10_read_from_cache (env : Env) (uri : String) (offset : Nat)
    (buffer : Buffer) (nbytes : Nat)
    (h : (read_from_cache env uri offset buffer nbytes).1 = .ok) :
    (read_from_cache env uri offset buffer nbytes).2.1.bufSize = nbytes
    ∧ (read_from_cache env uri offset buffer nbytes).2.1.bufOffset = 0 := by
  simp only [read_from_cache] at h ⊢
  cases hc : env.cacheRead (uri ++ "+" ++ toString offset) nbytes with
  | none =>
    rw [hc] at h
    simp at h
  | some r =>
    obtain ⟨b, ic⟩ := r
    exact ⟨rfl, rfl⟩

/-- Witness for C10 on a concrete cache miss (`in_cache = false`). -/
theorem claim10_witness :
    (read_from_cache demoEnv "u" 4 { bufSize := 9, bufOffset := 9 } 5).2.1.bufSize
      = 5
    ∧ (read_from_cache demoEnv "u" 4
        { bufSize := 9, bufOffset := 9 } 5).2.1.bufOffset = 0 :=
  claim10_read_from_cache demoEnv "u" 4 { bufSize := 9, bufOffset := 9 } 5
    (by decide)

end TileDBSM
